import Mathlib

/-!
# Verification development for `cpu_timer` (charmonium::scope_timer)

A shallow embedding of

* `src/include/clock.hpp` (`cpp_clock_gettime`, `cpu_now`, `wall_now`),
* `src/charmonium/scope_timer/scope_timer.hpp` (`ScopeTimerArgs`, `ScopeTimer`),

followed by theorems about them.  `process.hpp`, `thread.hpp`,
`type_eraser.hpp` and `source_loc.hpp` are included by the sources but are not
among them: the methods of `Process` and `Thread` that `ScopeTimer` calls are
taken as parameters (`Ops`), and a second instance of them is modelled from the
specification where a statement is about frames and deliveries.
-/

namespace ScopeTimerModel

/-! ## clock.hpp -/

/-- The C type `struct timespec`; both fields are 64-bit signed on the target. -/
structure timespec where
  tv_sec : Int
  tv_nsec : Int
  deriving DecidableEq, Repr

/-- What one call `clock_gettime(clock_id, &ts)` of the operating system gives:
the returned status, the value of `errno` after the call, and the `timespec`
written through the pointer. -/
structure ClockRead where
  status : Int
  errno : Int
  ts : timespec
  deriving DecidableEq, Repr

/-- The C++ exception `std::system_error`: error code and message. -/
structure system_error where
  code : Int
  what : String
  deriving DecidableEq, Repr

/-- Value of a 64-bit two's-complement signed integer holding `x`
(`std::chrono::nanoseconds::rep`). -/
def wrap64 (x : Int) : Int := (x + 2 ^ 63) % 2 ^ 64 - 2 ^ 63

/-- The range of a 64-bit signed integer. -/
def inInt64 (x : Int) : Prop := -(2 ^ 63) ≤ x ∧ x < 2 ^ 63

instance (x : Int) : Decidable (inInt64 x) := by
  unfold inInt64; exact inferInstance

/-- The constant `CLOCK_MONOTONIC` of `<ctime>` on Linux. -/
def CLOCK_MONOTONIC : Int := 1

/-- The constant `CLOCK_THREAD_CPUTIME_ID` of `<ctime>` on Linux. -/
def CLOCK_THREAD_CPUTIME_ID : Int := 3

/-- `myclock::cpp_clock_gettime` (clock.hpp lines 16-22).  The system call is the
parameter `clock_gettime`.  A non-zero status throws `system_error` built from
`errno`; otherwise `seconds{tv_sec} + nanoseconds{tv_nsec}` is computed in
`nanoseconds`, whose representation is a 64-bit signed integer: the conversion
of the seconds multiplies by `1000000000` and the sum is taken, both in 64 bits. -/
def cpp_clock_gettime (clock_gettime : Int → ClockRead) (clock_id : Int) :
    Except system_error Int :=
  let r := clock_gettime clock_id
  if r.status != 0 then
    Except.error ⟨r.errno, "clock_gettime"⟩
  else
    Except.ok (wrap64 (wrap64 (r.ts.tv_sec * 1000000000) + r.ts.tv_nsec))

/-- `myclock::cpu_now` (clock.hpp lines 24-26). -/
def cpu_now (clock_gettime : Int → ClockRead) : Except system_error Int :=
  cpp_clock_gettime clock_gettime CLOCK_THREAD_CPUTIME_ID

/-- `myclock::wall_now` (clock.hpp lines 28-30). -/
def wall_now (clock_gettime : Int → ClockRead) : Except system_error Int :=
  cpp_clock_gettime clock_gettime CLOCK_MONOTONIC

/-- An `Except` computation ended by throwing. -/
def raises {ε α : Type} : Except ε α → Bool
  | Except.error _ => true
  | Except.ok _ => false

/-! ## scope_timer.hpp: `ScopeTimerArgs` -/

/-- `ScopeTimerArgs` (scope_timer.hpp lines 10-41).  `TypeEraser` and `SourceLoc`
are declared in headers that are not among the sources and are type parameters.
`const char*` is a string; `Process*` and `Thread*` are addresses. -/
structure ScopeTimerArgs (TypeEraser SourceLoc : Type) where
  info : TypeEraser
  name : String
  only_time_start : Bool
  process : Nat
  thread : Nat
  source_loc : SourceLoc
  deriving DecidableEq, Repr

namespace ScopeTimerArgs

variable {TypeEraser SourceLoc : Type}

/-- `ScopeTimerArgs::set_info` (line 18): the value returned. -/
def set_info (self : ScopeTimerArgs TypeEraser SourceLoc) (new_info : TypeEraser) :
    ScopeTimerArgs TypeEraser SourceLoc :=
  ⟨new_info, self.name, self.only_time_start, self.process, self.thread, self.source_loc⟩

/-- `ScopeTimerArgs::set_name` (line 22): the value returned. -/
def set_name (self : ScopeTimerArgs TypeEraser SourceLoc) (new_name : String) :
    ScopeTimerArgs TypeEraser SourceLoc :=
  ⟨self.info, new_name, self.only_time_start, self.process, self.thread, self.source_loc⟩

/-- `ScopeTimerArgs::set_process` (line 26): the value returned. -/
def set_process (self : ScopeTimerArgs TypeEraser SourceLoc) (new_process : Nat) :
    ScopeTimerArgs TypeEraser SourceLoc :=
  ⟨self.info, self.name, self.only_time_start, new_process, self.thread, self.source_loc⟩

/-- `ScopeTimerArgs::set_thread` (line 30): the value returned. -/
def set_thread (self : ScopeTimerArgs TypeEraser SourceLoc) (new_thread : Nat) :
    ScopeTimerArgs TypeEraser SourceLoc :=
  ⟨self.info, self.name, self.only_time_start, self.process, new_thread, self.source_loc⟩

/-- `ScopeTimerArgs::set_source_loc` (line 34): the value returned. -/
def set_source_loc (self : ScopeTimerArgs TypeEraser SourceLoc) (new_source_loc : SourceLoc) :
    ScopeTimerArgs TypeEraser SourceLoc :=
  ⟨self.info, self.name, self.only_time_start, self.process, self.thread, new_source_loc⟩

/-- `ScopeTimerArgs::set_only_time_start` (line 38): the value returned. -/
def set_only_time_start (self : ScopeTimerArgs TypeEraser SourceLoc)
    (new_only_time_start : Bool) : ScopeTimerArgs TypeEraser SourceLoc :=
  ⟨self.info, self.name, new_only_time_start, self.process, self.thread, self.source_loc⟩

end ScopeTimerArgs

/-! ## scope_timer.hpp: `ScopeTimer` -/

/-- One call of a method of `Thread` made by `ScopeTimer`, with the object it is
called on and the arguments passed. -/
inductive Call (TypeEraser SourceLoc : Type)
  | enter_stack_frame (thread : Nat) (name : String) (info : TypeEraser)
      (source_loc : SourceLoc) (only_time_start : Bool)
  | exit_stack_frame (thread : Nat)
  deriving DecidableEq, Repr

/-- The methods of `Process` and `Thread` used by scope_timer.hpp and main.cpp.
Their headers are not among the sources, so they are parameters: each acts on the
program state `σ` through the address of its object, and the two `Thread` methods
either return or throw. -/
structure Ops (σ TypeEraser SourceLoc : Type) where
  is_enabled : σ → Nat → Bool
  set_enabled : σ → Nat → Bool → σ
  enter_stack_frame : σ → Nat → String → TypeEraser → SourceLoc → Bool → σ × Option system_error
  exit_stack_frame : σ → Nat → σ × Option system_error

/-- Program state together with the log of the `Thread` method calls made so far,
oldest first. -/
structure World (σ TypeEraser SourceLoc : Type) where
  state : σ
  calls : List (Call TypeEraser SourceLoc)

/-- Modelled from the spec: `CHARMONIUM_SCOPE_TIMER_LIKELY` is defined in a header
that is not among the sources; it is a branch hint ("a single predictable
branch") and has the value of its argument. -/
def CHARMONIUM_SCOPE_TIMER_LIKELY (b : Bool) : Bool := b

/-- The data members of `ScopeTimer` (scope_timer.hpp lines 48-49).  After the
constructor `args.info` and `args.source_loc` are moved-from; they are never read
again, and the model keeps the values they had. -/
structure ScopeTimer (TypeEraser SourceLoc : Type) where
  args : ScopeTimerArgs TypeEraser SourceLoc
  enabled : Bool
  deriving DecidableEq, Repr

/-- How a constructor call ends: with an object, or by an exception (then there is
no object and its destructor never runs). -/
inductive Constructed (σ TypeEraser SourceLoc : Type)
  | object (self : ScopeTimer TypeEraser SourceLoc) (w : World σ TypeEraser SourceLoc)
  | threw (e : system_error) (w : World σ TypeEraser SourceLoc)

/-- How a destructor call ends: it completes, or an exception leaves its body.
`~ScopeTimer` has no exception specification and is therefore `noexcept`: an
exception leaving its body calls `std::terminate`. -/
inductive Destroyed (σ TypeEraser SourceLoc : Type)
  | completed (w : World σ TypeEraser SourceLoc)
  | terminated (e : system_error) (w : World σ TypeEraser SourceLoc)

section Guard

variable {σ TypeEraser SourceLoc : Type}

/-- The call `thread->enter_stack_frame(...)`, logged. -/
def call_enter_stack_frame (ops : Ops σ TypeEraser SourceLoc) (w : World σ TypeEraser SourceLoc)
    (thread : Nat) (name : String) (info : TypeEraser) (source_loc : SourceLoc)
    (only_time_start : Bool) : World σ TypeEraser SourceLoc × Option system_error :=
  let r := ops.enter_stack_frame w.state thread name info source_loc only_time_start
  (⟨r.1, w.calls ++ [Call.enter_stack_frame thread name info source_loc only_time_start]⟩, r.2)

/-- The call `thread->exit_stack_frame()`, logged. -/
def call_exit_stack_frame (ops : Ops σ TypeEraser SourceLoc) (w : World σ TypeEraser SourceLoc)
    (thread : Nat) : World σ TypeEraser SourceLoc × Option system_error :=
  let r := ops.exit_stack_frame w.state thread
  (⟨r.1, w.calls ++ [Call.exit_stack_frame thread]⟩, r.2)

/-- `ScopeTimer::ScopeTimer(ScopeTimerArgs&&)` (scope_timer.hpp lines 54-61). -/
def ScopeTimer.ctor (ops : Ops σ TypeEraser SourceLoc) (args_ : ScopeTimerArgs TypeEraser SourceLoc)
    (w : World σ TypeEraser SourceLoc) : Constructed σ TypeEraser SourceLoc :=
  let args := args_
  let enabled := ops.is_enabled w.state args.process
  if CHARMONIUM_SCOPE_TIMER_LIKELY enabled then
    match call_enter_stack_frame ops w args.thread args.name args.info args.source_loc
        args.only_time_start with
    | (w1, none) => Constructed.object ⟨args, enabled⟩ w1
    | (w1, some e) => Constructed.threw e w1
  else
    Constructed.object ⟨args, enabled⟩ w

/-- `ScopeTimer::~ScopeTimer()` (scope_timer.hpp lines 77-81). -/
def ScopeTimer.dtor (ops : Ops σ TypeEraser SourceLoc) (self : ScopeTimer TypeEraser SourceLoc)
    (w : World σ TypeEraser SourceLoc) : Destroyed σ TypeEraser SourceLoc :=
  if CHARMONIUM_SCOPE_TIMER_LIKELY (self.enabled && !self.args.only_time_start) then
    match call_exit_stack_frame ops w self.args.thread with
    | (w1, none) => Destroyed.completed w1
    | (w1, some e) => Destroyed.terminated e w1
  else
    Destroyed.completed w

/-- The world in which a destructor call ends. -/
def Destroyed.world : Destroyed σ TypeEraser SourceLoc → World σ TypeEraser SourceLoc
  | Destroyed.completed w => w
  | Destroyed.terminated _ w => w

/-- The world in which a constructor call ends. -/
def Constructed.world : Constructed σ TypeEraser SourceLoc → World σ TypeEraser SourceLoc
  | Constructed.object _ w => w
  | Constructed.threw _ w => w

/-- The object a constructor call made, if it did not throw. -/
def Constructed.guard : Constructed σ TypeEraser SourceLoc → Option (ScopeTimer TypeEraser SourceLoc)
  | Constructed.object g _ => some g
  | Constructed.threw _ _ => none

/-- Code of one thread using scope guards, as main.cpp does: `scope args body rest`
is the block `{ ScopeTimer t{args}; body }` followed by `rest`, so a guard is
destroyed after every guard constructed inside its block; `set_enabled p b rest`
is the statement `p->set_enabled(b);` followed by `rest`. -/
inductive Prog (TypeEraser SourceLoc : Type)
  | skip
  | scope (args : ScopeTimerArgs TypeEraser SourceLoc) (body rest : Prog TypeEraser SourceLoc)
  | set_enabled (process : Nat) (b : Bool) (rest : Prog TypeEraser SourceLoc)

/-- How running a piece of code ends: it reaches its end, an exception is in flight,
or `std::terminate` was called. -/
inductive Ran (σ TypeEraser SourceLoc : Type)
  | finished (w : World σ TypeEraser SourceLoc)
  | threw (e : system_error) (w : World σ TypeEraser SourceLoc)
  | terminated (e : system_error) (w : World σ TypeEraser SourceLoc)

/-- Execution of `Prog` with the scoped lifetimes of C++: the guard of a block is
destroyed when control leaves the block, at its end or by an exception. -/
def run (ops : Ops σ TypeEraser SourceLoc) :
    Prog TypeEraser SourceLoc → World σ TypeEraser SourceLoc → Ran σ TypeEraser SourceLoc
  | Prog.skip, w => Ran.finished w
  | Prog.scope args body rest, w =>
    match ScopeTimer.ctor ops args w with
    | Constructed.threw e w1 => Ran.threw e w1
    | Constructed.object g w1 =>
      match run ops body w1 with
      | Ran.finished w2 =>
        match ScopeTimer.dtor ops g w2 with
        | Destroyed.completed w3 => run ops rest w3
        | Destroyed.terminated e w3 => Ran.terminated e w3
      | Ran.threw e w2 =>
        match ScopeTimer.dtor ops g w2 with
        | Destroyed.completed w3 => Ran.threw e w3
        | Destroyed.terminated e1 w3 => Ran.terminated e1 w3
      | Ran.terminated e w2 => Ran.terminated e w2
  | Prog.set_enabled process b rest, w =>
    run ops rest ⟨ops.set_enabled w.state process b, w.calls⟩

/-- The world in which a run ends. -/
def Ran.world : Ran σ TypeEraser SourceLoc → World σ TypeEraser SourceLoc
  | Ran.finished w => w
  | Ran.threw _ w => w
  | Ran.terminated _ w => w

/-- The block with `n` guards nested in each other, all built from `args`. -/
def nested (args : ScopeTimerArgs TypeEraser SourceLoc) : Nat → Prog TypeEraser SourceLoc
  | 0 => Prog.skip
  | n + 1 => Prog.scope args (nested args n) Prog.skip

/-- Statements that only toggle the enabled flag of processes: one
`set_enabled` call per entry of the list. -/
def toggles : List (Nat × Bool) → Prog TypeEraser SourceLoc
  | [] => Prog.skip
  | (p, b) :: ts => Prog.set_enabled p b (toggles ts)

/-- Every guard of the code is bound to a process that `w` reports disabled, and
the code has no `set_enabled` statement. -/
def allDisabled (ops : Ops σ TypeEraser SourceLoc) (w : World σ TypeEraser SourceLoc) :
    Prog TypeEraser SourceLoc → Prop
  | Prog.skip => True
  | Prog.scope args body rest =>
    ops.is_enabled w.state args.process = false ∧ allDisabled ops w body ∧ allDisabled ops w rest
  | Prog.set_enabled _ _ _ => False

end Guard

/-! ## `Process` and `Thread`, from the specification -/

/-- Modelled from the spec: `Frame` of thread.hpp, which is not among the sources
(spec §3): name, source location, start and end wall time, start and end CPU
time, metadata, owning thread, and whether the frame is start-only.  Times are
nanosecond counts; a time that was not captured is `none`. -/
structure Frame (TypeEraser SourceLoc : Type) where
  name : String
  source_loc : SourceLoc
  info : TypeEraser
  start_wall : Int
  start_cpu : Option Int
  end_wall : Option Int
  end_cpu : Option Int
  thread : Nat
  start_only : Bool
  deriving DecidableEq, Repr

/-- Modelled from the spec: `Process` of process.hpp, which is not among the
sources (spec §3): the enabled flag, whether a callback is registered, and the
delivery mode (`every = true` is immediate mode, `false` is batch mode). -/
structure Process where
  enabled : Bool
  callback : Bool
  every : Bool
  deriving DecidableEq, Repr

/-- Modelled from the spec: `Thread` of thread.hpp, which is not among the sources
(spec §2, §3, §4.3): the stack of open frames, topmost first, the address of the
owning `Process`, the completed frames waiting for a flush in batch mode, and the
start-only frames, recorded as start-time-only markers, newest first. -/
structure Thread (TypeEraser SourceLoc : Type) where
  stack : List (Frame TypeEraser SourceLoc)
  process : Nat
  finished : List (Frame TypeEraser SourceLoc)
  markers : List (Frame TypeEraser SourceLoc)

/-- Modelled from the spec: the state the operations of process.hpp and thread.hpp
act on.  `clock n` is what the `n`-th call of `clock_gettime` gives and `reads`
counts the calls made; `cpu_timing` is the build option for CPU times;
`delivered` lists the invocations of the callback, oldest first, each with the
frames it received. -/
structure SpecState (TypeEraser SourceLoc : Type) where
  process : Nat → Process
  thread : Nat → Thread TypeEraser SourceLoc
  clock : Nat → Int → ClockRead
  reads : Nat
  cpu_timing : Bool
  delivered : List (List (Frame TypeEraser SourceLoc))

section Spec

variable {TypeEraser SourceLoc : Type}

/-- Replaces the thread at address `tid`. -/
def SpecState.set_thread (s : SpecState TypeEraser SourceLoc) (tid : Nat)
    (t : Thread TypeEraser SourceLoc) : SpecState TypeEraser SourceLoc :=
  { s with thread := fun i => if i = tid then t else s.thread i }

/-- Modelled from the spec: `Process::is_enabled` (spec §4.1). -/
def Process.is_enabled (s : SpecState TypeEraser SourceLoc) (p : Nat) : Bool :=
  (s.process p).enabled

/-- Modelled from the spec: `Process::set_enabled` (spec §4.1). -/
def Process.set_enabled (s : SpecState TypeEraser SourceLoc) (p : Nat) (b : Bool) :
    SpecState TypeEraser SourceLoc :=
  { s with process := fun i => if i = p then { s.process p with enabled := b } else s.process i }

/-- Modelled from the spec: the capture of the timestamps of one event (spec §4.2):
the wall time always, the CPU time if the build enables it, each read with
clock.hpp and each failure propagating at the read. -/
def capture_times (s : SpecState TypeEraser SourceLoc) :
    SpecState TypeEraser SourceLoc × Except system_error (Int × Option Int) :=
  match wall_now (s.clock s.reads) with
  | Except.error e => ({ s with reads := s.reads + 1 }, Except.error e)
  | Except.ok wall =>
    if s.cpu_timing then
      match cpu_now (s.clock (s.reads + 1)) with
      | Except.error e => ({ s with reads := s.reads + 2 }, Except.error e)
      | Except.ok cpu => ({ s with reads := s.reads + 2 }, Except.ok (wall, some cpu))
    else
      ({ s with reads := s.reads + 1 }, Except.ok (wall, none))

/-- Modelled from the spec: `Thread::enter_stack_frame` (spec §4.2, §4.3, §3):
captures the start times and returns the position the frame has as the topmost.
A frame that is not start-only is pushed on the stack of the thread.  A
start-only frame is recorded as a start-time-only marker: it never receives end
times or delivery as a completed frame, and is not left among the open frames
that `exit_stack_frame` pops. -/
def Thread.enter_stack_frame (s : SpecState TypeEraser SourceLoc) (tid : Nat) (name : String)
    (info : TypeEraser) (source_loc : SourceLoc) (start_only : Bool) :
    SpecState TypeEraser SourceLoc × Except system_error Nat :=
  match capture_times s with
  | (s1, Except.error e) => (s1, Except.error e)
  | (s1, Except.ok (wall, cpu)) =>
    let t := s1.thread tid
    let frame : Frame TypeEraser SourceLoc :=
      ⟨name, source_loc, info, wall, cpu, none, none, tid, start_only⟩
    if start_only then
      (s1.set_thread tid { t with markers := frame :: t.markers }, Except.ok t.stack.length)
    else
      (s1.set_thread tid { t with stack := frame :: t.stack }, Except.ok t.stack.length)

/-- Modelled from the spec: the hand-over of a completed frame (spec §4.1, §4.2):
in immediate mode one callback invocation with the frame, dropped when no
callback is registered; in batch mode the frame joins those waiting. -/
def deliver (s : SpecState TypeEraser SourceLoc) (tid : Nat) (f : Frame TypeEraser SourceLoc) :
    SpecState TypeEraser SourceLoc :=
  let t := s.thread tid
  let p := s.process t.process
  if p.every then
    if p.callback then { s with delivered := s.delivered ++ [[f]] } else s
  else
    s.set_thread tid { t with finished := t.finished ++ [f] }

/-- Modelled from the spec: the frame `f` with the end times of a capture attached;
a failed capture is absorbed and leaves the frame with no end time recorded
(spec §4.3, §7). -/
def ended (f : Frame TypeEraser SourceLoc) :
    Except system_error (Int × Option Int) → Frame TypeEraser SourceLoc
  | Except.ok (wall, cpu) => { f with end_wall := some wall, end_cpu := cpu }
  | Except.error _ => f

/-- Modelled from the spec: `Thread::exit_stack_frame` (spec §4.2, §4.3, §7):
captures the end times, pops the topmost frame and hands it over as completed.
A failure of a clock read at the end of a frame is absorbed here: it does not
escape, and the frame is handed over with no end time recorded.  On an empty
stack, which the contract excludes, nothing is done. -/
def Thread.exit_stack_frame (s : SpecState TypeEraser SourceLoc) (tid : Nat) :
    SpecState TypeEraser SourceLoc :=
  match (s.thread tid).stack with
  | [] => s
  | f :: below =>
    let r := capture_times s
    let t := r.1.thread tid
    let s2 := r.1.set_thread tid { t with stack := below }
    deliver s2 tid (ended f r.2)

/-- Modelled from the spec: the explicit flush of batch mode (spec §4.1, §6): one
callback invocation with the frames waiting on the thread, in the order they
completed. -/
def Thread.flush (s : SpecState TypeEraser SourceLoc) (tid : Nat) :
    SpecState TypeEraser SourceLoc :=
  let t := s.thread tid
  let p := s.process t.process
  let s1 := s.set_thread tid { t with finished := [] }
  if p.callback then { s1 with delivered := s1.delivered ++ [t.finished] } else s1

/-- The exception of a call, if it threw. -/
def thrown {α : Type} : Except system_error α → Option system_error
  | Except.error e => some e
  | Except.ok _ => none

/-- The operations modelled from the specification, as the methods `ScopeTimer`
calls. -/
def specOps : Ops (SpecState TypeEraser SourceLoc) TypeEraser SourceLoc where
  is_enabled := Process.is_enabled
  set_enabled := Process.set_enabled
  enter_stack_frame := fun s tid name info source_loc start_only =>
    let r := Thread.enter_stack_frame s tid name info source_loc start_only
    (r.1, thrown r.2)
  exit_stack_frame := fun s tid => (Thread.exit_stack_frame s tid, none)

/-- No call of `clock_gettime` from now on fails. -/
def ClockOK (s : SpecState TypeEraser SourceLoc) : Prop :=
  ∀ n, s.reads ≤ n → ∀ clock_id, (s.clock n clock_id).status = 0

/-- The code consists of guards only, each bound to thread `tid` and process `p`
and none start-only. -/
def scopesOn (tid p : Nat) : Prog TypeEraser SourceLoc → Prop
  | Prog.skip => True
  | Prog.scope args body rest =>
    (args.thread = tid ∧ args.process = p ∧ args.only_time_start = false) ∧
      scopesOn tid p body ∧ scopesOn tid p rest
  | Prog.set_enabled _ _ _ => False

/-- The guards of the code in the order their blocks are left: those nested in a
block before the guard of the block, and a block before the code that follows it. -/
def exitOrder : Prog TypeEraser SourceLoc → List (ScopeTimerArgs TypeEraser SourceLoc)
  | Prog.skip => []
  | Prog.scope args body rest => exitOrder body ++ args :: exitOrder rest
  | Prog.set_enabled _ _ rest => exitOrder rest

/-- The guards of the code in the order they are constructed. -/
def entryOrder : Prog TypeEraser SourceLoc → List (ScopeTimerArgs TypeEraser SourceLoc)
  | Prog.skip => []
  | Prog.scope args body rest => args :: (entryOrder body ++ entryOrder rest)
  | Prog.set_enabled _ _ rest => entryOrder rest

/-- What a frame carries of the arguments of the guard that entered it. -/
def Frame.origin (f : Frame TypeEraser SourceLoc) : String × TypeEraser × SourceLoc :=
  (f.name, f.info, f.source_loc)

/-- What a guard passes to the frame it enters. -/
def ScopeTimerArgs.origin (a : ScopeTimerArgs TypeEraser SourceLoc) :
    String × TypeEraser × SourceLoc :=
  (a.name, a.info, a.source_loc)

/-- The stack of thread `tid`. -/
def stackOf (w : World (SpecState TypeEraser SourceLoc) TypeEraser SourceLoc) (tid : Nat) :
    List (Frame TypeEraser SourceLoc) :=
  (w.state.thread tid).stack

end Spec

/-! ## Notions used in the statements about frames -/

section Notions

variable {TypeEraser SourceLoc : Type}

/-- The world a run leaves when it did not end in `std::terminate`. -/
def Ran.unwound {σ : Type} : Ran σ TypeEraser SourceLoc → Option (World σ TypeEraser SourceLoc)
  | Ran.finished w => some w
  | Ran.threw _ w => some w
  | Ran.terminated _ _ => none

/-- State `s1` comes after `s` with the same processes, clock and build option, the
same owner of every thread, and no clock read taken back. -/
def Later (s s1 : SpecState TypeEraser SourceLoc) : Prop :=
  s1.process = s.process ∧ s1.clock = s.clock ∧ s1.cpu_timing = s.cpu_timing ∧
    s.reads ≤ s1.reads ∧ ∀ tid, (s1.thread tid).process = (s.thread tid).process

/-- Between `s` and `s1` the completed frames `frames` of thread `tid` were handed
over, in this order, and nothing else was: in immediate mode each in a callback
invocation of its own (none if no callback is registered), in batch mode each
appended to the frames waiting on the thread. -/
def handedOver (s s1 : SpecState TypeEraser SourceLoc) (tid : Nat)
    (frames : List (Frame TypeEraser SourceLoc)) : Prop :=
  if (s.process (s.thread tid).process).every then
    s1.delivered = s.delivered ++
        (if (s.process (s.thread tid).process).callback then frames.map (fun f => [f]) else []) ∧
      ∀ i, (s1.thread i).finished = (s.thread i).finished
  else
    s1.delivered = s.delivered ∧
      ∀ i, (s1.thread i).finished = (s.thread i).finished ++ (if i = tid then frames else [])

/-- The property of the block `{ ScopeTimer t{args}; body }` run from `w`, for a
guard whose destructor calls `exit_stack_frame` (constructed enabled, not
start-only): the constructor pushed a frame `f` carrying the args on the stack of
the thread; when `body` has been left, at its end or by an exception, the stack
is again the one the constructor left, with `f` topmost; the destructor
completes, hands over `f` (with the end times `ew`, `ec` attached) and nothing
else, and leaves the stack as it was before the constructor. -/
def popsOwnFrame (args : ScopeTimerArgs TypeEraser SourceLoc) (body : Prog TypeEraser SourceLoc)
    (w : World (SpecState TypeEraser SourceLoc) TypeEraser SourceLoc) : Prop :=
  ∀ g w1, ScopeTimer.ctor specOps args w = Constructed.object g w1 →
    (g.enabled && !g.args.only_time_start) = true →
    ∃ (f : Frame TypeEraser SourceLoc)
      (w2 w3 : World (SpecState TypeEraser SourceLoc) TypeEraser SourceLoc)
      (ew ec : Option Int),
      f.origin = args.origin ∧
      stackOf w1 args.thread = f :: stackOf w args.thread ∧
      (run specOps body w1).unwound = some w2 ∧
      stackOf w2 args.thread = f :: stackOf w args.thread ∧
      ScopeTimer.dtor specOps g w2 = Destroyed.completed w3 ∧
      stackOf w3 args.thread = stackOf w args.thread ∧
      handedOver w2.state w3.state args.thread [{ f with end_wall := ew, end_cpu := ec }]

/-- No start-only frame is open, waiting or delivered, and every start-only frame
recorded as a marker has no end time. -/
def StartOnlyClean (s : SpecState TypeEraser SourceLoc) : Prop :=
  (∀ tid, ∀ f ∈ (s.thread tid).stack, f.start_only = false) ∧
  (∀ tid, ∀ f ∈ (s.thread tid).finished, f.start_only = false) ∧
  (∀ batch ∈ s.delivered, ∀ f ∈ batch, f.start_only = false) ∧
  (∀ tid, ∀ f ∈ (s.thread tid).markers,
    f.start_only = true ∧ f.end_wall = none ∧ f.end_cpu = none)

/-- The start-only frames recorded on thread `tid`, newest first. -/
def markersOf (w : World (SpecState TypeEraser SourceLoc) TypeEraser SourceLoc) (tid : Nat) :
    List (Frame TypeEraser SourceLoc) :=
  (w.state.thread tid).markers

/-- The calls of `Thread` methods that the guards of the code make when every guard
is constructed enabled and none is start-only: one `enter_stack_frame` per guard
at the start of its block and one `exit_stack_frame` at the end of its block. -/
def callsOf : Prog TypeEraser SourceLoc → List (Call TypeEraser SourceLoc)
  | Prog.skip => []
  | Prog.scope args body rest =>
    Call.enter_stack_frame args.thread args.name args.info args.source_loc args.only_time_start ::
      (callsOf body ++ Call.exit_stack_frame args.thread :: callsOf rest)
  | Prog.set_enabled _ _ rest => callsOf rest

end Notions

/-! ## Concrete inputs -/

/-- A state with metadata and source locations given as numbers: process 0 is
enabled, process 1 is disabled, both with a callback and in immediate mode; every
thread has no frame and belongs to process 0; the `n`-th clock read succeeds
with `n` seconds; CPU timing is on. -/
def exampleState : SpecState Nat Nat where
  process := fun p => if p = 0 then ⟨true, true, true⟩ else ⟨false, true, true⟩
  thread := fun _ => ⟨[], 0, [], []⟩
  clock := fun n _ => ⟨0, 0, ⟨n, 0⟩⟩
  reads := 0
  cpu_timing := true
  delivered := []

/-- `exampleState` with no call made yet. -/
def exampleWorld : World (SpecState Nat Nat) Nat Nat := ⟨exampleState, []⟩

/-- Arguments of a guard named "A" on thread 0 and the enabled process 0. -/
def argsA : ScopeTimerArgs Nat Nat := ⟨1, "A", false, 0, 0, 10⟩

/-- Arguments of a guard named "B" on thread 0 and the enabled process 0. -/
def argsB : ScopeTimerArgs Nat Nat := ⟨2, "B", false, 0, 0, 20⟩

/-- Arguments of a start-only guard named "S" on thread 0 and the enabled process 0. -/
def argsS : ScopeTimerArgs Nat Nat := ⟨3, "S", true, 0, 0, 30⟩

/-- Arguments of a guard named "D" on thread 0 and the disabled process 1. -/
def argsD : ScopeTimerArgs Nat Nat := ⟨4, "D", false, 1, 0, 40⟩

/-! ## Theorems: clock.hpp -/

theorem wrap64_of_inInt64 (x : Int) (h : inInt64 x) : wrap64 x = x := by
  unfold inInt64 at h
  unfold wrap64
  omega

theorem wrap64_wrap64_add (a b : Int) : wrap64 (wrap64 a + b) = wrap64 (a + b) := by
  unfold wrap64
  omega

theorem cpp_clock_gettime_ok (cg : Int → ClockRead) (clock_id : Int)
    (h : (cg clock_id).status = 0) :
    cpp_clock_gettime cg clock_id =
      Except.ok (wrap64 ((cg clock_id).ts.tv_sec * 1000000000 + (cg clock_id).ts.tv_nsec)) := by
  simp [cpp_clock_gettime, h, wrap64_wrap64_add]

theorem cpp_clock_gettime_error (cg : Int → ClockRead) (clock_id : Int)
    (h : (cg clock_id).status ≠ 0) :
    cpp_clock_gettime cg clock_id = Except.error ⟨(cg clock_id).errno, "clock_gettime"⟩ := by
  simp [cpp_clock_gettime, h]

/-- C8, as stated, fails: a successful read of `tv_sec = 9223372037`, `tv_nsec = 0`
(both within their 64-bit types) does not return `tv_sec * 1000000000 + tv_nsec`
nanoseconds, which does not fit the 64-bit count, but `-9223372036709551616`. -/
theorem C8_counterexample :
    inInt64 9223372037 ∧
    (∀ clock_id : Int,
      cpp_clock_gettime (fun _ => ⟨0, 0, ⟨9223372037, 0⟩⟩) clock_id
        = Except.ok (-9223372036709551616)) ∧
    wall_now (fun _ => ⟨0, 0, ⟨9223372037, 0⟩⟩) = Except.ok (-9223372036709551616) ∧
    cpu_now (fun _ => ⟨0, 0, ⟨9223372037, 0⟩⟩) = Except.ok (-9223372036709551616) ∧
    (-9223372036709551616 : Int) ≠ 9223372037 * 1000000000 + 0 := by
  refine ⟨by decide, fun _ => rfl, rfl, rfl, by decide⟩

/-- C8, amended: for every clock id, `cpp_clock_gettime` (hence `wall_now` and
`cpu_now`) throws `system_error` exactly when `clock_gettime` returns a non-zero
status, the error carrying `errno`; otherwise it returns
`tv_sec * 1000000000 + tv_nsec` as a 64-bit signed count, which is exactly that
number whenever the number fits in 64 bits signed. -/
theorem C8_clock_read (cg : Int → ClockRead) (clock_id : Int) :
    (raises (cpp_clock_gettime cg clock_id) = true ↔ (cg clock_id).status ≠ 0) ∧
    ((cg clock_id).status ≠ 0 →
      cpp_clock_gettime cg clock_id = Except.error ⟨(cg clock_id).errno, "clock_gettime"⟩) ∧
    ((cg clock_id).status = 0 →
      cpp_clock_gettime cg clock_id =
        Except.ok (wrap64 ((cg clock_id).ts.tv_sec * 1000000000 + (cg clock_id).ts.tv_nsec))) ∧
    ((cg clock_id).status = 0 →
      inInt64 ((cg clock_id).ts.tv_sec * 1000000000 + (cg clock_id).ts.tv_nsec) →
      cpp_clock_gettime cg clock_id =
        Except.ok ((cg clock_id).ts.tv_sec * 1000000000 + (cg clock_id).ts.tv_nsec)) ∧
    wall_now cg = cpp_clock_gettime cg CLOCK_MONOTONIC ∧
    cpu_now cg = cpp_clock_gettime cg CLOCK_THREAD_CPUTIME_ID := by
  refine ⟨?_, cpp_clock_gettime_error cg clock_id, cpp_clock_gettime_ok cg clock_id, ?_, rfl, rfl⟩
  · by_cases h : (cg clock_id).status = 0
    · simp [cpp_clock_gettime_ok cg clock_id h, raises, h]
    · simp [cpp_clock_gettime_error cg clock_id h, raises, h]
  · intro h hr
    rw [cpp_clock_gettime_ok cg clock_id h, wrap64_of_inInt64 _ hr]

/-- C8, amended, at a successful read of 5 s 7 ns and at a failed read. -/
theorem C8_clock_read_witness :
    wall_now (fun _ => ⟨0, 0, ⟨5, 7⟩⟩) = Except.ok 5000000007 ∧
    raises (cpu_now (fun _ => ⟨-1, 22, ⟨0, 0⟩⟩)) = true :=
  ⟨(C8_clock_read (fun _ => ⟨0, 0, ⟨5, 7⟩⟩) CLOCK_MONOTONIC).2.2.2.1 rfl (by decide),
   (C8_clock_read (fun _ => ⟨-1, 22, ⟨0, 0⟩⟩) CLOCK_THREAD_CPUTIME_ID).1.mpr (by decide)⟩

/-- C9, as stated, fails: of the successful readings `(9223372036 s, 854775807 ns)`
and `(9223372037 s, 0 ns)`, in lexicographic order and with nanoseconds in range,
the first gives `9223372036854775807` and the second the smaller
`-9223372036709551616`. -/
theorem C9_counterexample :
    ((0 : Int) ≤ 854775807 ∧ (854775807 : Int) < 1000000000) ∧
    ((9223372036 : Int) < 9223372037) ∧
    wall_now (fun _ => ⟨0, 0, ⟨9223372036, 854775807⟩⟩) = Except.ok 9223372036854775807 ∧
    wall_now (fun _ => ⟨0, 0, ⟨9223372037, 0⟩⟩) = Except.ok (-9223372036709551616) ∧
    cpu_now (fun _ => ⟨0, 0, ⟨9223372036, 854775807⟩⟩) = Except.ok 9223372036854775807 ∧
    cpu_now (fun _ => ⟨0, 0, ⟨9223372037, 0⟩⟩) = Except.ok (-9223372036709551616) ∧
    ¬ ((9223372036854775807 : Int) ≤ -9223372036709551616) := by
  refine ⟨by decide, by decide, rfl, rfl, rfl, rfl, by decide⟩

/-- C9, amended: for two successful readings with `0 ≤ tv_nsec < 1000000000`, in
lexicographic order, and with `tv_sec * 1000000000 + tv_nsec` of both within the
64-bit signed range, the duration returned for the first is at most the one
returned for the second, for `cpp_clock_gettime` on any clock id and so for
`wall_now` and `cpu_now`. -/
theorem C9_monotone (cg1 cg2 : Int → ClockRead) (clock_id : Int)
    (ok1 : (cg1 clock_id).status = 0) (ok2 : (cg2 clock_id).status = 0)
    (n1 : 0 ≤ (cg1 clock_id).ts.tv_nsec ∧ (cg1 clock_id).ts.tv_nsec < 1000000000)
    (n2 : 0 ≤ (cg2 clock_id).ts.tv_nsec ∧ (cg2 clock_id).ts.tv_nsec < 1000000000)
    (le : (cg1 clock_id).ts.tv_sec < (cg2 clock_id).ts.tv_sec ∨
      ((cg1 clock_id).ts.tv_sec = (cg2 clock_id).ts.tv_sec ∧
        (cg1 clock_id).ts.tv_nsec ≤ (cg2 clock_id).ts.tv_nsec))
    (r1 : inInt64 ((cg1 clock_id).ts.tv_sec * 1000000000 + (cg1 clock_id).ts.tv_nsec))
    (r2 : inInt64 ((cg2 clock_id).ts.tv_sec * 1000000000 + (cg2 clock_id).ts.tv_nsec)) :
    ∃ d1 d2 : Int,
      cpp_clock_gettime cg1 clock_id = Except.ok d1 ∧
      cpp_clock_gettime cg2 clock_id = Except.ok d2 ∧ d1 ≤ d2 ∧
      (clock_id = CLOCK_MONOTONIC → wall_now cg1 = Except.ok d1 ∧ wall_now cg2 = Except.ok d2) ∧
      (clock_id = CLOCK_THREAD_CPUTIME_ID →
        cpu_now cg1 = Except.ok d1 ∧ cpu_now cg2 = Except.ok d2) := by
  refine ⟨(cg1 clock_id).ts.tv_sec * 1000000000 + (cg1 clock_id).ts.tv_nsec,
    (cg2 clock_id).ts.tv_sec * 1000000000 + (cg2 clock_id).ts.tv_nsec, ?_, ?_, ?_, ?_, ?_⟩
  · rw [cpp_clock_gettime_ok cg1 clock_id ok1, wrap64_of_inInt64 _ r1]
  · rw [cpp_clock_gettime_ok cg2 clock_id ok2, wrap64_of_inInt64 _ r2]
  · omega
  · intro h
    subst h
    exact ⟨by rw [wall_now, cpp_clock_gettime_ok cg1 _ ok1, wrap64_of_inInt64 _ r1],
      by rw [wall_now, cpp_clock_gettime_ok cg2 _ ok2, wrap64_of_inInt64 _ r2]⟩
  · intro h
    subst h
    exact ⟨by rw [cpu_now, cpp_clock_gettime_ok cg1 _ ok1, wrap64_of_inInt64 _ r1],
      by rw [cpu_now, cpp_clock_gettime_ok cg2 _ ok2, wrap64_of_inInt64 _ r2]⟩

/-- C9, amended, at the readings 1 s 999999999 ns and 2 s 0 ns of the monotonic
clock. -/
theorem C9_monotone_witness :
    ∃ d1 d2 : Int,
      cpp_clock_gettime (fun _ => ⟨0, 0, ⟨1, 999999999⟩⟩) 1 = Except.ok d1 ∧
      cpp_clock_gettime (fun _ => ⟨0, 0, ⟨2, 0⟩⟩) 1 = Except.ok d2 ∧ d1 ≤ d2 ∧
      ((1 : Int) = CLOCK_MONOTONIC → wall_now (fun _ => ⟨0, 0, ⟨1, 999999999⟩⟩) = Except.ok d1 ∧
        wall_now (fun _ => ⟨0, 0, ⟨2, 0⟩⟩) = Except.ok d2) ∧
      ((1 : Int) = CLOCK_THREAD_CPUTIME_ID →
        cpu_now (fun _ => ⟨0, 0, ⟨1, 999999999⟩⟩) = Except.ok d1 ∧
        cpu_now (fun _ => ⟨0, 0, ⟨2, 0⟩⟩) = Except.ok d2) :=
  C9_monotone (fun _ => ⟨0, 0, ⟨1, 999999999⟩⟩) (fun _ => ⟨0, 0, ⟨2, 0⟩⟩) 1 rfl rfl
    (by decide) (by decide) (Or.inl (by decide)) (by decide) (by decide)

/-! ## Theorems: `ScopeTimerArgs` -/

/-- C10: each setter of `ScopeTimerArgs` returns an args value whose named field is
the new value and whose other five fields are those of the original; setters of
distinct fields commute, and the same setter applied twice keeps the last value. -/
theorem C10_setters {TypeEraser SourceLoc : Type} (a : ScopeTimerArgs TypeEraser SourceLoc)
    (i i2 : TypeEraser) (n n2 : String) (p p2 t t2 : Nat) (l l2 : SourceLoc) (o o2 : Bool) :
    (a.set_info i = { a with info := i } ∧ a.set_name n = { a with name := n } ∧
      a.set_process p = { a with process := p } ∧ a.set_thread t = { a with thread := t } ∧
      a.set_source_loc l = { a with source_loc := l } ∧
      a.set_only_time_start o = { a with only_time_start := o }) ∧
    ((a.set_info i).info = i ∧ (a.set_info i).name = a.name ∧
      (a.set_info i).only_time_start = a.only_time_start ∧ (a.set_info i).process = a.process ∧
      (a.set_info i).thread = a.thread ∧ (a.set_info i).source_loc = a.source_loc) ∧
    ((a.set_name n).info = a.info ∧ (a.set_name n).name = n ∧
      (a.set_name n).only_time_start = a.only_time_start ∧ (a.set_name n).process = a.process ∧
      (a.set_name n).thread = a.thread ∧ (a.set_name n).source_loc = a.source_loc) ∧
    ((a.set_process p).info = a.info ∧ (a.set_process p).name = a.name ∧
      (a.set_process p).only_time_start = a.only_time_start ∧ (a.set_process p).process = p ∧
      (a.set_process p).thread = a.thread ∧ (a.set_process p).source_loc = a.source_loc) ∧
    ((a.set_thread t).info = a.info ∧ (a.set_thread t).name = a.name ∧
      (a.set_thread t).only_time_start = a.only_time_start ∧ (a.set_thread t).process = a.process ∧
      (a.set_thread t).thread = t ∧ (a.set_thread t).source_loc = a.source_loc) ∧
    ((a.set_source_loc l).info = a.info ∧ (a.set_source_loc l).name = a.name ∧
      (a.set_source_loc l).only_time_start = a.only_time_start ∧
      (a.set_source_loc l).process = a.process ∧ (a.set_source_loc l).thread = a.thread ∧
      (a.set_source_loc l).source_loc = l) ∧
    ((a.set_only_time_start o).info = a.info ∧ (a.set_only_time_start o).name = a.name ∧
      (a.set_only_time_start o).only_time_start = o ∧
      (a.set_only_time_start o).process = a.process ∧
      (a.set_only_time_start o).thread = a.thread ∧
      (a.set_only_time_start o).source_loc = a.source_loc) ∧
    ((a.set_info i).set_name n = (a.set_name n).set_info i ∧
      (a.set_info i).set_process p = (a.set_process p).set_info i ∧
      (a.set_info i).set_thread t = (a.set_thread t).set_info i ∧
      (a.set_info i).set_source_loc l = (a.set_source_loc l).set_info i ∧
      (a.set_info i).set_only_time_start o = (a.set_only_time_start o).set_info i ∧
      (a.set_name n).set_process p = (a.set_process p).set_name n ∧
      (a.set_name n).set_thread t = (a.set_thread t).set_name n ∧
      (a.set_name n).set_source_loc l = (a.set_source_loc l).set_name n ∧
      (a.set_name n).set_only_time_start o = (a.set_only_time_start o).set_name n ∧
      (a.set_process p).set_thread t = (a.set_thread t).set_process p ∧
      (a.set_process p).set_source_loc l = (a.set_source_loc l).set_process p ∧
      (a.set_process p).set_only_time_start o = (a.set_only_time_start o).set_process p ∧
      (a.set_thread t).set_source_loc l = (a.set_source_loc l).set_thread t ∧
      (a.set_thread t).set_only_time_start o = (a.set_only_time_start o).set_thread t ∧
      (a.set_source_loc l).set_only_time_start o = (a.set_only_time_start o).set_source_loc l) ∧
    ((a.set_info i).set_info i2 = a.set_info i2 ∧ (a.set_name n).set_name n2 = a.set_name n2 ∧
      (a.set_process p).set_process p2 = a.set_process p2 ∧
      (a.set_thread t).set_thread t2 = a.set_thread t2 ∧
      (a.set_source_loc l).set_source_loc l2 = a.set_source_loc l2 ∧
      (a.set_only_time_start o).set_only_time_start o2 = a.set_only_time_start o2) := by
  refine ⟨⟨rfl, rfl, rfl, rfl, rfl, rfl⟩, ⟨rfl, rfl, rfl, rfl, rfl, rfl⟩,
    ⟨rfl, rfl, rfl, rfl, rfl, rfl⟩, ⟨rfl, rfl, rfl, rfl, rfl, rfl⟩,
    ⟨rfl, rfl, rfl, rfl, rfl, rfl⟩, ⟨rfl, rfl, rfl, rfl, rfl, rfl⟩,
    ⟨rfl, rfl, rfl, rfl, rfl, rfl⟩,
    ⟨rfl, rfl, rfl, rfl, rfl, rfl, rfl, rfl, rfl, rfl, rfl, rfl, rfl, rfl, rfl⟩,
    ⟨rfl, rfl, rfl, rfl, rfl, rfl⟩⟩

/-! ## Theorems: `ScopeTimer`, for every `Process` and `Thread` -/

section GuardTheorems

variable {σ TypeEraser SourceLoc : Type}

theorem ctor_disabled (ops : Ops σ TypeEraser SourceLoc) (args : ScopeTimerArgs TypeEraser SourceLoc)
    (w : World σ TypeEraser SourceLoc) (h : ops.is_enabled w.state args.process = false) :
    ScopeTimer.ctor ops args w = Constructed.object ⟨args, false⟩ w := by
  simp [ScopeTimer.ctor, CHARMONIUM_SCOPE_TIMER_LIKELY, h]

theorem ctor_enabled (ops : Ops σ TypeEraser SourceLoc) (args : ScopeTimerArgs TypeEraser SourceLoc)
    (w : World σ TypeEraser SourceLoc) (h : ops.is_enabled w.state args.process = true) :
    ScopeTimer.ctor ops args w =
      match (ops.enter_stack_frame w.state args.thread args.name args.info args.source_loc
          args.only_time_start).2 with
      | none => Constructed.object ⟨args, true⟩
          ⟨(ops.enter_stack_frame w.state args.thread args.name args.info args.source_loc
              args.only_time_start).1,
            w.calls ++ [Call.enter_stack_frame args.thread args.name args.info args.source_loc
              args.only_time_start]⟩
      | some e => Constructed.threw e
          ⟨(ops.enter_stack_frame w.state args.thread args.name args.info args.source_loc
              args.only_time_start).1,
            w.calls ++ [Call.enter_stack_frame args.thread args.name args.info args.source_loc
              args.only_time_start]⟩ := by
  simp only [ScopeTimer.ctor, CHARMONIUM_SCOPE_TIMER_LIKELY, h, call_enter_stack_frame, if_true]
  cases hr : (ops.enter_stack_frame w.state args.thread args.name args.info args.source_loc
    args.only_time_start).2 <;> simp [hr]

theorem ctor_object (ops : Ops σ TypeEraser SourceLoc) (args : ScopeTimerArgs TypeEraser SourceLoc)
    (w w1 : World σ TypeEraser SourceLoc) (g : ScopeTimer TypeEraser SourceLoc)
    (hc : ScopeTimer.ctor ops args w = Constructed.object g w1) :
    g = ⟨args, ops.is_enabled w.state args.process⟩ := by
  cases h : ops.is_enabled w.state args.process
  · rw [ctor_disabled ops args w h] at hc
    cases hc
    rfl
  · rw [ctor_enabled ops args w h] at hc
    cases hr : (ops.enter_stack_frame w.state args.thread args.name args.info args.source_loc
      args.only_time_start).2
    · rw [hr] at hc
      cases hc
      rfl
    · rw [hr] at hc
      cases hc

theorem dtor_noop (ops : Ops σ TypeEraser SourceLoc) (g : ScopeTimer TypeEraser SourceLoc)
    (w : World σ TypeEraser SourceLoc) (h : (g.enabled && !g.args.only_time_start) = false) :
    ScopeTimer.dtor ops g w = Destroyed.completed w := by
  simp only [ScopeTimer.dtor, CHARMONIUM_SCOPE_TIMER_LIKELY, h]
  rfl

theorem dtor_exit (ops : Ops σ TypeEraser SourceLoc) (g : ScopeTimer TypeEraser SourceLoc)
    (w : World σ TypeEraser SourceLoc) (h : (g.enabled && !g.args.only_time_start) = true) :
    ScopeTimer.dtor ops g w =
      match (ops.exit_stack_frame w.state g.args.thread).2 with
      | none => Destroyed.completed
          ⟨(ops.exit_stack_frame w.state g.args.thread).1,
            w.calls ++ [Call.exit_stack_frame g.args.thread]⟩
      | some e => Destroyed.terminated e
          ⟨(ops.exit_stack_frame w.state g.args.thread).1,
            w.calls ++ [Call.exit_stack_frame g.args.thread]⟩ := by
  simp only [ScopeTimer.dtor, CHARMONIUM_SCOPE_TIMER_LIKELY, h, call_exit_stack_frame, if_true]
  cases hr : (ops.exit_stack_frame w.state g.args.thread).2 <;> simp [hr]

theorem dtor_exit_world (ops : Ops σ TypeEraser SourceLoc) (g : ScopeTimer TypeEraser SourceLoc)
    (w : World σ TypeEraser SourceLoc) (h : (g.enabled && !g.args.only_time_start) = true) :
    (ScopeTimer.dtor ops g w).world =
      ⟨(ops.exit_stack_frame w.state g.args.thread).1,
        w.calls ++ [Call.exit_stack_frame g.args.thread]⟩ := by
  rw [dtor_exit ops g w h]
  cases (ops.exit_stack_frame w.state g.args.thread).2 <;> rfl

theorem run_allDisabled (ops : Ops σ TypeEraser SourceLoc) (w : World σ TypeEraser SourceLoc)
    (prog : Prog TypeEraser SourceLoc) (h : allDisabled ops w prog) :
    run ops prog w = Ran.finished w := by
  induction prog with
  | skip => rfl
  | scope args body rest ihb ihr =>
    obtain ⟨ha, hb, hr⟩ := h
    simp only [run, ctor_disabled ops args w ha, ihb hb]
    rw [dtor_noop ops _ w (by simp)]
    exact ihr hr
  | set_enabled p b rest _ => exact absurd h (by simp [allDisabled])

theorem allDisabled_nested (ops : Ops σ TypeEraser SourceLoc) (w : World σ TypeEraser SourceLoc)
    (args : ScopeTimerArgs TypeEraser SourceLoc)
    (h : ops.is_enabled w.state args.process = false) (n : Nat) :
    allDisabled ops w (nested args n) := by
  induction n with
  | zero => trivial
  | succ n ih => exact ⟨h, ih, trivial⟩

theorem run_toggles (ops : Ops σ TypeEraser SourceLoc) (ts : List (Nat × Bool))
    (w : World σ TypeEraser SourceLoc) :
    run ops (toggles ts) w =
      Ran.finished ⟨ts.foldl (fun s pb => ops.set_enabled s pb.1 pb.2) w.state, w.calls⟩ := by
  induction ts generalizing w with
  | nil => rfl
  | cons pb ts ih =>
    obtain ⟨p, b⟩ := pb
    simp only [toggles, run, ih, List.foldl_cons]

theorem ctor_object_world (ops : Ops σ TypeEraser SourceLoc)
    (args : ScopeTimerArgs TypeEraser SourceLoc) (w w1 : World σ TypeEraser SourceLoc)
    (g : ScopeTimer TypeEraser SourceLoc)
    (hc : ScopeTimer.ctor ops args w = Constructed.object g w1) :
    w1.calls = w.calls ++
      (if ops.is_enabled w.state args.process then
        [Call.enter_stack_frame args.thread args.name args.info args.source_loc
          args.only_time_start]
      else []) := by
  cases h : ops.is_enabled w.state args.process
  · rw [ctor_disabled ops args w h] at hc
    cases hc
    simp
  · rw [ctor_enabled ops args w h] at hc
    cases hr : (ops.enter_stack_frame w.state args.thread args.name args.info args.source_loc
      args.only_time_start).2
    · rw [hr] at hc
      cases hc
      simp
    · rw [hr] at hc
      cases hc

theorem dtor_calls (ops : Ops σ TypeEraser SourceLoc) (g : ScopeTimer TypeEraser SourceLoc)
    (w : World σ TypeEraser SourceLoc) :
    (ScopeTimer.dtor ops g w).world.calls = w.calls ++
      (if g.enabled && !g.args.only_time_start then [Call.exit_stack_frame g.args.thread]
      else []) := by
  cases h : (g.enabled && !g.args.only_time_start)
  · rw [dtor_noop ops g w h]
    simp [Destroyed.world]
  · rw [dtor_exit_world ops g w h]
    simp

end GuardTheorems


/-! ## Theorems: `ScopeTimer` with the `Process` and `Thread` of the specification -/

section SpecTheorems

variable {TypeEraser SourceLoc : Type}

theorem set_thread_thread (s : SpecState TypeEraser SourceLoc) (tid i : Nat)
    (t : Thread TypeEraser SourceLoc) :
    (s.set_thread tid t).thread i = if i = tid then t else s.thread i := rfl

theorem capture_times_state (s : SpecState TypeEraser SourceLoc) :
    ∃ k, (capture_times s).1 = { s with reads := s.reads + k } := by
  unfold capture_times
  cases wall_now (s.clock s.reads) with
  | error e => exact ⟨1, rfl⟩
  | ok wall =>
    cases hc : s.cpu_timing with
    | false => exact ⟨1, by simp⟩
    | true =>
      cases cpu_now (s.clock (s.reads + 1)) with
      | error e => exact ⟨2, by simp⟩
      | ok cpu => exact ⟨2, by simp⟩

theorem capture_times_ok (s : SpecState TypeEraser SourceLoc) (h : ClockOK s) :
    ∃ wall cpu, (capture_times s).2 = Except.ok (wall, cpu) := by
  have h0 := h s.reads (Nat.le_refl _)
  have h1 := h (s.reads + 1) (Nat.le_succ _)
  unfold capture_times
  rw [wall_now, cpu_now, cpp_clock_gettime_ok _ _ (h0 _), cpp_clock_gettime_ok _ _ (h1 _)]
  cases s.cpu_timing <;> simp

theorem capture_times_thread (s : SpecState TypeEraser SourceLoc) :
    (capture_times s).1.thread = s.thread ∧ (capture_times s).1.delivered = s.delivered ∧
      Later s (capture_times s).1 := by
  obtain ⟨k, hk⟩ := capture_times_state s
  rw [hk]
  exact ⟨rfl, rfl, rfl, rfl, rfl, Nat.le_add_right _ _, fun _ => rfl⟩

theorem enter_error (s : SpecState TypeEraser SourceLoc) (tid : Nat) (name : String)
    (info : TypeEraser) (source_loc : SourceLoc) (o : Bool) (e : system_error)
    (h : (capture_times s).2 = Except.error e) :
    Thread.enter_stack_frame s tid name info source_loc o =
      ((capture_times s).1, Except.error e) := by
  unfold Thread.enter_stack_frame
  rcases hct : capture_times s with ⟨s1, x⟩
  rw [hct] at h
  simp only at h
  subst h
  rfl

theorem enter_push (s : SpecState TypeEraser SourceLoc) (tid : Nat) (name : String)
    (info : TypeEraser) (source_loc : SourceLoc) (wall : Int) (cpu : Option Int)
    (h : (capture_times s).2 = Except.ok (wall, cpu)) :
    Thread.enter_stack_frame s tid name info source_loc false =
      ((capture_times s).1.set_thread tid
        { (capture_times s).1.thread tid with
          stack := ⟨name, source_loc, info, wall, cpu, none, none, tid, false⟩ ::
            ((capture_times s).1.thread tid).stack },
        Except.ok ((capture_times s).1.thread tid).stack.length) := by
  unfold Thread.enter_stack_frame
  rcases hct : capture_times s with ⟨s1, x⟩
  rw [hct] at h
  simp only at h
  subst h
  rfl

theorem enter_mark (s : SpecState TypeEraser SourceLoc) (tid : Nat) (name : String)
    (info : TypeEraser) (source_loc : SourceLoc) (wall : Int) (cpu : Option Int)
    (h : (capture_times s).2 = Except.ok (wall, cpu)) :
    Thread.enter_stack_frame s tid name info source_loc true =
      ((capture_times s).1.set_thread tid
        { (capture_times s).1.thread tid with
          markers := ⟨name, source_loc, info, wall, cpu, none, none, tid, true⟩ ::
            ((capture_times s).1.thread tid).markers },
        Except.ok ((capture_times s).1.thread tid).stack.length) := by
  unfold Thread.enter_stack_frame
  rcases hct : capture_times s with ⟨s1, x⟩
  rw [hct] at h
  simp only at h
  subst h
  rfl

theorem exit_pop (s : SpecState TypeEraser SourceLoc) (tid : Nat)
    (f : Frame TypeEraser SourceLoc) (below : List (Frame TypeEraser SourceLoc))
    (hs : (s.thread tid).stack = f :: below) :
    Thread.exit_stack_frame s tid =
      deliver ((capture_times s).1.set_thread tid
          { (capture_times s).1.thread tid with stack := below }) tid
        (ended f (capture_times s).2) := by
  unfold Thread.exit_stack_frame
  rw [hs]

theorem exit_empty (s : SpecState TypeEraser SourceLoc) (tid : Nat)
    (hs : (s.thread tid).stack = []) : Thread.exit_stack_frame s tid = s := by
  unfold Thread.exit_stack_frame
  rw [hs]

theorem deliver_stack (s : SpecState TypeEraser SourceLoc) (tid : Nat)
    (f : Frame TypeEraser SourceLoc) (i : Nat) :
    ((deliver s tid f).thread i).stack = (s.thread i).stack ∧
      ((deliver s tid f).thread i).markers = (s.thread i).markers := by
  unfold deliver
  cases he : (s.process (s.thread tid).process).every <;>
    cases hc : (s.process (s.thread tid).process).callback <;>
    by_cases hi : i = tid <;> simp [set_thread_thread, hi, he, hc]

theorem ctor_spec_error (a : ScopeTimerArgs TypeEraser SourceLoc)
    (w : World (SpecState TypeEraser SourceLoc) TypeEraser SourceLoc)
    (hen : (w.state.process a.process).enabled = true) (e : system_error)
    (h : (capture_times w.state).2 = Except.error e) :
    ScopeTimer.ctor specOps a w = Constructed.threw e
      ⟨(capture_times w.state).1,
        w.calls ++ [Call.enter_stack_frame a.thread a.name a.info a.source_loc
          a.only_time_start]⟩ := by
  rw [ctor_enabled specOps a w hen]
  simp only [specOps, enter_error w.state a.thread a.name a.info a.source_loc a.only_time_start
    e h, thrown]

theorem ctor_spec_push (a : ScopeTimerArgs TypeEraser SourceLoc)
    (w : World (SpecState TypeEraser SourceLoc) TypeEraser SourceLoc)
    (hen : (w.state.process a.process).enabled = true) (ho : a.only_time_start = false)
    (wall : Int) (cpu : Option Int)
    (h : (capture_times w.state).2 = Except.ok (wall, cpu)) :
    ScopeTimer.ctor specOps a w = Constructed.object ⟨a, true⟩
      ⟨(capture_times w.state).1.set_thread a.thread
          { (capture_times w.state).1.thread a.thread with
            stack := ⟨a.name, a.source_loc, a.info, wall, cpu, none, none, a.thread, false⟩ ::
              ((capture_times w.state).1.thread a.thread).stack },
        w.calls ++ [Call.enter_stack_frame a.thread a.name a.info a.source_loc false]⟩ := by
  rw [ctor_enabled specOps a w hen]
  simp only [specOps, ho, enter_push w.state a.thread a.name a.info a.source_loc wall cpu h,
    thrown]

theorem ctor_spec_mark (a : ScopeTimerArgs TypeEraser SourceLoc)
    (w : World (SpecState TypeEraser SourceLoc) TypeEraser SourceLoc)
    (hen : (w.state.process a.process).enabled = true) (ho : a.only_time_start = true)
    (wall : Int) (cpu : Option Int)
    (h : (capture_times w.state).2 = Except.ok (wall, cpu)) :
    ScopeTimer.ctor specOps a w = Constructed.object ⟨a, true⟩
      ⟨(capture_times w.state).1.set_thread a.thread
          { (capture_times w.state).1.thread a.thread with
            markers := ⟨a.name, a.source_loc, a.info, wall, cpu, none, none, a.thread, true⟩ ::
              ((capture_times w.state).1.thread a.thread).markers },
        w.calls ++ [Call.enter_stack_frame a.thread a.name a.info a.source_loc true]⟩ := by
  rw [ctor_enabled specOps a w hen]
  simp only [specOps, ho, enter_mark w.state a.thread a.name a.info a.source_loc wall cpu h,
    thrown]

theorem dtor_spec_exit (g : ScopeTimer TypeEraser SourceLoc)
    (w : World (SpecState TypeEraser SourceLoc) TypeEraser SourceLoc)
    (hg : (g.enabled && !g.args.only_time_start) = true) :
    ScopeTimer.dtor specOps g w = Destroyed.completed
      ⟨Thread.exit_stack_frame w.state g.args.thread,
        w.calls ++ [Call.exit_stack_frame g.args.thread]⟩ := by
  rw [dtor_exit specOps g w hg]
  rfl

theorem dtor_spec_completes (g : ScopeTimer TypeEraser SourceLoc)
    (w : World (SpecState TypeEraser SourceLoc) TypeEraser SourceLoc) :
    ∃ w1, ScopeTimer.dtor specOps g w = Destroyed.completed w1 := by
  cases hg : (g.enabled && !g.args.only_time_start)
  · exact ⟨w, dtor_noop specOps g w hg⟩
  · exact ⟨_, dtor_spec_exit g w hg⟩

theorem dtor_spec_pop (g : ScopeTimer TypeEraser SourceLoc)
    (w : World (SpecState TypeEraser SourceLoc) TypeEraser SourceLoc)
    (hg : (g.enabled && !g.args.only_time_start) = true)
    (f : Frame TypeEraser SourceLoc) (below : List (Frame TypeEraser SourceLoc))
    (hs : (w.state.thread g.args.thread).stack = f :: below) :
    ScopeTimer.dtor specOps g w = Destroyed.completed
      ⟨deliver ((capture_times w.state).1.set_thread g.args.thread
          { (capture_times w.state).1.thread g.args.thread with stack := below }) g.args.thread
          (ended f (capture_times w.state).2),
        w.calls ++ [Call.exit_stack_frame g.args.thread]⟩ := by
  rw [dtor_spec_exit g w hg, exit_pop w.state g.args.thread f below hs]

theorem stackOf_pop (s : SpecState TypeEraser SourceLoc) (tid : Nat)
    (below : List (Frame TypeEraser SourceLoc)) (f : Frame TypeEraser SourceLoc)
    (c : List (Call TypeEraser SourceLoc)) (i : Nat) :
    stackOf (⟨deliver ((capture_times s).1.set_thread tid
        { (capture_times s).1.thread tid with stack := below }) tid f, c⟩ :
        World (SpecState TypeEraser SourceLoc) TypeEraser SourceLoc) i =
      if i = tid then below else (s.thread i).stack := by
  obtain ⟨hth, -, -⟩ := capture_times_thread s
  by_cases hi : i = tid <;> simp [stackOf, deliver_stack, set_thread_thread, hi, hth]

/-- What the constructor does to the stacks: it throws and leaves them, or it
returns a guard whose destructor will not call `exit_stack_frame` and leaves them,
or it returns a guard whose destructor will and has pushed one frame that carries
the args. -/
theorem ctor_spec_cases (a : ScopeTimerArgs TypeEraser SourceLoc)
    (w : World (SpecState TypeEraser SourceLoc) TypeEraser SourceLoc) :
    (∃ e w1, ScopeTimer.ctor specOps a w = Constructed.threw e w1 ∧
      ∀ i, stackOf w1 i = stackOf w i) ∨
    (∃ g w1, ScopeTimer.ctor specOps a w = Constructed.object g w1 ∧ g.args = a ∧
      (g.enabled && !g.args.only_time_start) = false ∧ ∀ i, stackOf w1 i = stackOf w i) ∨
    (∃ g w1 f, ScopeTimer.ctor specOps a w = Constructed.object g w1 ∧ g.args = a ∧
      (g.enabled && !g.args.only_time_start) = true ∧ f.origin = a.origin ∧
      f.thread = a.thread ∧ f.start_only = false ∧ f.end_wall = none ∧ f.end_cpu = none ∧
      ∀ i, stackOf w1 i = if i = a.thread then f :: stackOf w i else stackOf w i) := by
  obtain ⟨hth, -, -⟩ := capture_times_thread w.state
  cases hen : (w.state.process a.process).enabled with
  | false =>
    exact Or.inr (Or.inl ⟨⟨a, false⟩, w, ctor_disabled specOps a w hen, rfl, rfl, fun _ => rfl⟩)
  | true =>
    rcases hct : (capture_times w.state).2 with e | ⟨wall, cpu⟩
    · refine Or.inl ⟨e, _, ctor_spec_error a w hen e hct, fun i => ?_⟩
      simp only [stackOf, hth]
    · cases ho : a.only_time_start with
      | true =>
        refine Or.inr (Or.inl ⟨⟨a, true⟩, _, ctor_spec_mark a w hen ho wall cpu hct, rfl,
          by simp [ho], fun i => ?_⟩)
        by_cases hi : i = a.thread <;> simp [stackOf, set_thread_thread, hi, hth]
      | false =>
        refine Or.inr (Or.inr ⟨⟨a, true⟩, _,
          ⟨a.name, a.source_loc, a.info, wall, cpu, none, none, a.thread, false⟩,
          ctor_spec_push a w hen ho wall cpu hct, rfl, by simp [ho], rfl, rfl, rfl, rfl, rfl,
          fun i => ?_⟩)
        by_cases hi : i = a.thread <;> simp [stackOf, set_thread_thread, hi, hth]

theorem run_unwinds (prog : Prog TypeEraser SourceLoc) :
    ∀ w : World (SpecState TypeEraser SourceLoc) TypeEraser SourceLoc,
      ∃ w1, (run specOps prog w).unwound = some w1 := by
  induction prog with
  | skip => exact fun w => ⟨w, rfl⟩
  | set_enabled p b rest ih =>
    intro w
    simp only [run]
    exact ih _
  | scope a body rest ihb ihr =>
    intro w
    simp only [run]
    cases hc : ScopeTimer.ctor specOps a w with
    | threw e w1 => exact ⟨w1, rfl⟩
    | object g w1 =>
      simp only []
      obtain ⟨w2, h2⟩ := ihb w1
      cases hrb : run specOps body w1 with
      | finished wb =>
        obtain ⟨w3, hd⟩ := dtor_spec_completes g wb
        simp only [hd]
        exact ihr w3
      | threw e wb =>
        obtain ⟨w3, hd⟩ := dtor_spec_completes g wb
        simp only [hd]
        exact ⟨w3, rfl⟩
      | terminated e wb =>
        rw [hrb] at h2
        simp [Ran.unwound] at h2

theorem run_stacks (prog : Prog TypeEraser SourceLoc) :
    ∀ w w1 : World (SpecState TypeEraser SourceLoc) TypeEraser SourceLoc,
      (run specOps prog w).unwound = some w1 → ∀ tid, stackOf w1 tid = stackOf w tid := by
  induction prog with
  | skip =>
    intro w w1 h tid
    simp only [run, Ran.unwound, Option.some.injEq] at h
    rw [← h]
  | set_enabled p b rest ih =>
    intro w w1 h tid
    simp only [run] at h
    rw [ih _ w1 h tid]
    rfl
  | scope a body rest ihb ihr =>
    intro w w1 h tid
    have hdtor : ∀ (g : ScopeTimer TypeEraser SourceLoc)
        (wp w2 w3 : World (SpecState TypeEraser SourceLoc) TypeEraser SourceLoc),
        ScopeTimer.ctor specOps a w = Constructed.object g wp →
        (∀ i, stackOf w2 i = stackOf wp i) →
        ScopeTimer.dtor specOps g w2 = Destroyed.completed w3 →
        ∀ i, stackOf w3 i = stackOf w i := by
      intro g wp w2 w3 hc h2 hd i
      rcases ctor_spec_cases a w with ⟨e, wq, hq, -⟩ | ⟨gq, wq, hq, -, hcond, hsq⟩ |
        ⟨gq, wq, f, hq, hga, hcond, -, -, -, -, -, hsq⟩
      · rw [hq] at hc
        cases hc
      · rw [hq] at hc
        cases hc
        rw [dtor_noop specOps g w2 hcond] at hd
        cases hd
        rw [h2 i, hsq i]
      · rw [hq] at hc
        cases hc
        have hs2 : (w2.state.thread g.args.thread).stack = f :: stackOf w a.thread := by
          have := h2 a.thread
          rw [hsq a.thread, if_pos rfl] at this
          rw [hga]
          exact this
        rw [dtor_spec_pop g w2 hcond f _ hs2] at hd
        cases hd
        rw [stackOf_pop, hga]
        by_cases hi : i = a.thread
        · simp [hi]
        · have := h2 i
          rw [hsq i, if_neg hi] at this
          simpa [hi, stackOf] using this
    simp only [run] at h
    cases hc : ScopeTimer.ctor specOps a w with
    | threw e wp =>
      rcases ctor_spec_cases a w with ⟨e1, wq, hq, hsq⟩ | ⟨gq, wq, hq, -⟩ | ⟨gq, wq, f, hq, -⟩
      · rw [hc] at h hq
        cases hq
        simp only [Ran.unwound, Option.some.injEq] at h
        rw [← h]
        exact hsq tid
      · rw [hc] at hq
        cases hq
      · rw [hc] at hq
        cases hq
    | object g wp =>
      rw [hc] at h
      simp only [] at h
      cases hrb : run specOps body wp with
      | finished w2 =>
        have h2 := ihb wp w2 (by rw [hrb]; rfl)
        obtain ⟨w3, hd⟩ := dtor_spec_completes g w2
        simp only [hrb, hd] at h
        rw [ihr w3 w1 h tid, hdtor g wp w2 w3 hc h2 hd tid]
      | threw e w2 =>
        have h2 := ihb wp w2 (by rw [hrb]; rfl)
        obtain ⟨w3, hd⟩ := dtor_spec_completes g w2
        simp only [hrb, hd, Ran.unwound, Option.some.injEq] at h
        rw [← h, hdtor g wp w2 w3 hc h2 hd tid]
      | terminated e w2 =>
        simp [hrb, Ran.unwound] at h

theorem Later.refl (s : SpecState TypeEraser SourceLoc) : Later s s :=
  ⟨rfl, rfl, rfl, Nat.le_refl _, fun _ => rfl⟩

theorem Later.trans {s s1 s2 : SpecState TypeEraser SourceLoc} (h1 : Later s s1)
    (h2 : Later s1 s2) : Later s s2 := by
  obtain ⟨a1, b1, c1, d1, e1⟩ := h1
  obtain ⟨a2, b2, c2, d2, e2⟩ := h2
  exact ⟨a2.trans a1, b2.trans b1, c2.trans c1, Nat.le_trans d1 d2,
    fun i => (e2 i).trans (e1 i)⟩

theorem ClockOK.later {s s1 : SpecState TypeEraser SourceLoc} (h : ClockOK s)
    (hl : Later s s1) : ClockOK s1 := by
  intro n hn clock_id
  rw [hl.2.1]
  exact h n (Nat.le_trans hl.2.2.2.1 hn) clock_id

theorem handedOver_nil (s s1 : SpecState TypeEraser SourceLoc) (tid : Nat)
    (hd : s1.delivered = s.delivered)
    (hf : ∀ i, (s1.thread i).finished = (s.thread i).finished) : handedOver s s1 tid [] := by
  unfold handedOver
  split
  · exact ⟨by simp [hd], hf⟩
  · exact ⟨hd, fun i => by simp [hf i]⟩

theorem handedOver_trans {s s1 s2 : SpecState TypeEraser SourceLoc} {tid : Nat}
    {A B : List (Frame TypeEraser SourceLoc)} (hl : Later s s1) (h1 : handedOver s s1 tid A)
    (h2 : handedOver s1 s2 tid B) : handedOver s s2 tid (A ++ B) := by
  unfold handedOver at h1 h2 ⊢
  rw [hl.1, hl.2.2.2.2 tid] at h2
  cases he : (s.process (s.thread tid).process).every
  · rw [he] at h1 h2
    simp only [Bool.false_eq_true, if_false] at h1 h2 ⊢
    refine ⟨h2.1.trans h1.1, fun i => ?_⟩
    rw [h2.2 i, h1.2 i]
    by_cases hi : i = tid <;> simp [hi]
  · rw [he] at h1 h2
    simp only [if_true] at h1 h2 ⊢
    refine ⟨?_, fun i => (h2.2 i).trans (h1.2 i)⟩
    rw [h2.1, h1.1]
    cases (s.process (s.thread tid).process).callback <;> simp

theorem handedOver_exit (s : SpecState TypeEraser SourceLoc) (tid : Nat)
    (below : List (Frame TypeEraser SourceLoc)) (f : Frame TypeEraser SourceLoc) :
    handedOver s
      (deliver ((capture_times s).1.set_thread tid
        { (capture_times s).1.thread tid with stack := below }) tid f) tid [f] := by
  obtain ⟨k, hk⟩ := capture_times_state s
  rw [hk]
  unfold handedOver deliver
  cases he : (s.process (s.thread tid).process).every <;>
    cases hc : (s.process (s.thread tid).process).callback <;>
    simp [set_thread_thread, SpecState.set_thread, he, hc]
  all_goals
    intro i
    by_cases hi : i = tid <;> simp [hi]

theorem later_exit (s : SpecState TypeEraser SourceLoc) (tid : Nat)
    (below : List (Frame TypeEraser SourceLoc)) (f : Frame TypeEraser SourceLoc) :
    Later s
      (deliver ((capture_times s).1.set_thread tid
        { (capture_times s).1.thread tid with stack := below }) tid f) := by
  obtain ⟨k, hk⟩ := capture_times_state s
  rw [hk]
  unfold deliver
  cases he : (s.process (s.thread tid).process).every <;>
    cases hc : (s.process (s.thread tid).process).callback <;>
    simp [Later, set_thread_thread, SpecState.set_thread, he, hc]
  all_goals
    intro i
    by_cases hi : i = tid <;> simp [hi]

theorem ctor_spec_step (a : ScopeTimerArgs TypeEraser SourceLoc)
    (w : World (SpecState TypeEraser SourceLoc) TypeEraser SourceLoc)
    (hen : (w.state.process a.process).enabled = true) (ho : a.only_time_start = false)
    (hclock : ClockOK w.state) :
    ∃ wp f, ScopeTimer.ctor specOps a w = Constructed.object ⟨a, true⟩ wp ∧
      Later w.state wp.state ∧
      (∀ i, stackOf wp i = if i = a.thread then f :: stackOf w i else stackOf w i) ∧
      wp.state.delivered = w.state.delivered ∧
      (∀ i, (wp.state.thread i).finished = (w.state.thread i).finished) ∧
      f.origin = a.origin ∧ f.thread = a.thread ∧
      wp.calls = w.calls ++
        [Call.enter_stack_frame a.thread a.name a.info a.source_loc a.only_time_start] := by
  obtain ⟨wall, cpu, hct⟩ := capture_times_ok w.state hclock
  obtain ⟨k, hk⟩ := capture_times_state w.state
  refine ⟨_, ⟨a.name, a.source_loc, a.info, wall, cpu, none, none, a.thread, false⟩,
    ctor_spec_push a w hen ho wall cpu hct, ?_, ?_, ?_, ?_, rfl, rfl, by rw [ho]⟩
  · rw [hk]
    refine ⟨rfl, rfl, rfl, Nat.le_add_right _ _, fun i => ?_⟩
    by_cases hi : i = a.thread <;> simp [set_thread_thread, hi]
  · intro i
    rw [hk]
    by_cases hi : i = a.thread <;> simp [stackOf, set_thread_thread, hi]
  · rw [hk]
    rfl
  · intro i
    rw [hk]
    by_cases hi : i = a.thread <;> simp [set_thread_thread, hi]

theorem dtor_spec_step (a : ScopeTimerArgs TypeEraser SourceLoc)
    (w : World (SpecState TypeEraser SourceLoc) TypeEraser SourceLoc)
    (hots : a.only_time_start = false) (f : Frame TypeEraser SourceLoc)
    (below : List (Frame TypeEraser SourceLoc)) (hs : stackOf w a.thread = f :: below)
    (hclock : ClockOK w.state) :
    ∃ w3 f1, ScopeTimer.dtor specOps ⟨a, true⟩ w = Destroyed.completed w3 ∧
      Later w.state w3.state ∧
      (∀ i, stackOf w3 i = if i = a.thread then below else stackOf w i) ∧
      handedOver w.state w3.state a.thread [f1] ∧
      f1.origin = f.origin ∧ f1.end_wall.isSome = true ∧ f1.thread = f.thread ∧
      w3.calls = w.calls ++ [Call.exit_stack_frame a.thread] := by
  obtain ⟨wall, cpu, hct⟩ := capture_times_ok w.state hclock
  obtain ⟨hth, -, -⟩ := capture_times_thread w.state
  have hg : ((⟨a, true⟩ : ScopeTimer TypeEraser SourceLoc).enabled &&
      !(⟨a, true⟩ : ScopeTimer TypeEraser SourceLoc).args.only_time_start) = true := by
    simp [hots]
  have hd := dtor_spec_pop ⟨a, true⟩ w hg f below hs
  rw [hct] at hd
  refine ⟨_, { f with end_wall := some wall, end_cpu := cpu }, hd,
    later_exit w.state a.thread below _, ?_,
    handedOver_exit w.state a.thread below _, rfl, rfl, rfl, rfl⟩
  intro i
  rw [stackOf_pop]
  rfl

theorem run_completed (tid p : Nat) (prog : Prog TypeEraser SourceLoc) :
    ∀ w : World (SpecState TypeEraser SourceLoc) TypeEraser SourceLoc,
      scopesOn tid p prog → (w.state.process p).enabled = true → ClockOK w.state →
      ∃ w1 frames, run specOps prog w = Ran.finished w1 ∧ Later w.state w1.state ∧
        (∀ i, stackOf w1 i = stackOf w i) ∧ handedOver w.state w1.state tid frames ∧
        frames.map Frame.origin = (exitOrder prog).map ScopeTimerArgs.origin ∧
        (∀ f ∈ frames, f.end_wall.isSome = true ∧ f.thread = tid) ∧
        w1.calls = w.calls ++ callsOf prog := by
  induction prog with
  | skip =>
    intro w _ _ _
    exact ⟨w, [], rfl, Later.refl _, fun _ => rfl,
      handedOver_nil _ _ _ rfl (fun _ => rfl), rfl, by simp, by simp [callsOf]⟩
  | set_enabled q b rest _ =>
    intro w h
    exact absurd h (by simp [scopesOn])
  | scope a body rest ihb ihr =>
    intro w h hen hclock
    obtain ⟨⟨hat, hap, hao⟩, hb, hr⟩ := h
    obtain ⟨wp, f, hc, hlp, hsp, hdp, hfp, hfo, hft, hcp⟩ :=
      ctor_spec_step a w (by rw [hap]; exact hen) hao hclock
    obtain ⟨w2, fb, hrb, hl2, hs2, hh2, hor2, he2, hc2⟩ :=
      ihb wp hb (by rw [hlp.1]; exact hen) (hclock.later hlp)
    have hstack2 : stackOf w2 a.thread = f :: stackOf w a.thread := by
      rw [hs2 a.thread, hsp a.thread]
      simp
    obtain ⟨w3, f1, hd, hl3, hs3, hh3, hf1o, hf1e, hf1t, hc3⟩ :=
      dtor_spec_step a w2 hao f _ hstack2 ((hclock.later hlp).later hl2)
    have hl03 : Later w.state w3.state := (hlp.trans hl2).trans hl3
    obtain ⟨w1, fr, hrr, hl1, hs1, hh1, hor1, he1, hc1⟩ :=
      ihr w3 hr (by rw [hl03.1]; exact hen) (hclock.later hl03)
    refine ⟨w1, fb ++ f1 :: fr, ?_, hl03.trans hl1, fun i => ?_, ?_, ?_, ?_, ?_⟩
    · simp only [run, hc, hrb, hd, hrr]
    · rw [hs1 i, hs3 i, hs2 i, hsp i]
      by_cases hi : i = a.thread <;> simp [hi]
    · have h0 : handedOver w.state wp.state tid [] := handedOver_nil _ _ _ hdp hfp
      have h3 : handedOver w2.state w3.state tid [f1] := by
        rw [← hat]
        exact hh3
      have := handedOver_trans hl03
        (handedOver_trans (hlp.trans hl2) (handedOver_trans hlp h0 hh2) h3) hh1
      simpa using this
    · simp [exitOrder, hor2, hor1, hf1o, hfo]
    · intro x hx
      simp only [List.mem_append, List.mem_cons] at hx
      rcases hx with hx | hx | hx
      · exact he2 x hx
      · rw [hx]
        exact ⟨hf1e, by rw [hf1t, hft, hat]⟩
      · exact he1 x hx
    · rw [hc1, hc3, hc2, hcp]
      simp [callsOf]

theorem exitOrder_perm (prog : Prog TypeEraser SourceLoc) :
    List.Perm (exitOrder prog) (entryOrder prog) := by
  induction prog with
  | skip => exact List.Perm.refl _
  | set_enabled q b rest ih => exact ih
  | scope a body rest ihb ihr =>
    simp only [exitOrder, entryOrder]
    exact (List.perm_middle).trans (List.Perm.cons a (List.Perm.append ihb ihr))

theorem allDisabled_of_scopesOn (tid p : Nat) (prog : Prog TypeEraser SourceLoc)
    (w : World (SpecState TypeEraser SourceLoc) TypeEraser SourceLoc)
    (h : scopesOn tid p prog) (hdis : (w.state.process p).enabled = false) :
    allDisabled specOps w prog := by
  induction prog with
  | skip => trivial
  | set_enabled q b rest _ => exact absurd h (by simp [scopesOn])
  | scope a body rest ihb ihr =>
    obtain ⟨⟨-, hap, -⟩, hb, hr⟩ := h
    refine ⟨?_, ihb hb, ihr hr⟩
    rw [hap]
    exact hdis

/-- C6: code made of properly nested guards on one thread, none start-only, bound
to a process with a registered callback, run while the clock works.  With the
process enabled the run reaches its end and the completed frames handed to the
callback are exactly the frames of the guards in the order the blocks are left,
an inner guard before the enclosing one: each entered frame once (the frames are
a rearrangement of the entered ones, each carrying an end time), one invocation
per frame in immediate mode, and in batch mode one invocation with all of them at
the flush.  With the process disabled nothing is delivered and nothing changes. -/
theorem C6_lifo_delivery (tid p : Nat) (prog : Prog TypeEraser SourceLoc)
    (w : World (SpecState TypeEraser SourceLoc) TypeEraser SourceLoc)
    (hp : scopesOn tid p prog) (hown : (w.state.thread tid).process = p)
    (hcb : (w.state.process p).callback = true) (hclock : ClockOK w.state) :
    ((w.state.process p).enabled = true →
      ∃ w1 frames, run specOps prog w = Ran.finished w1 ∧
        frames.map Frame.origin = (exitOrder prog).map ScopeTimerArgs.origin ∧
        List.Perm (frames.map Frame.origin) ((entryOrder prog).map ScopeTimerArgs.origin) ∧
        (∀ f ∈ frames, f.end_wall.isSome = true ∧ f.thread = tid) ∧
        w1.calls = w.calls ++ callsOf prog ∧
        stackOf w1 tid = stackOf w tid ∧
        ((w.state.process p).every = true →
          w1.state.delivered = w.state.delivered ++ frames.map (fun f => [f])) ∧
        ((w.state.process p).every = false →
          w1.state.delivered = w.state.delivered ∧
          (Thread.flush w1.state tid).delivered =
            w.state.delivered ++ [(w.state.thread tid).finished ++ frames])) ∧
    ((w.state.process p).enabled = false → run specOps prog w = Ran.finished w) := by
  refine ⟨fun hen => ?_, fun hdis => run_allDisabled specOps w prog
    (allDisabled_of_scopesOn tid p prog w hp hdis)⟩
  obtain ⟨w1, frames, hrun, hl, hs, hh, hor, hend, hcalls⟩ := run_completed tid p prog w hp hen hclock
  refine ⟨w1, frames, hrun, hor, ?_, hend, hcalls, hs tid, fun hev => ?_, fun hev => ?_⟩
  · rw [hor]
    exact (exitOrder_perm prog).map _
  · unfold handedOver at hh
    rw [hown, hev, hcb] at hh
    exact hh.1
  · unfold handedOver at hh
    rw [hown, hev] at hh
    simp only [Bool.false_eq_true, if_false] at hh
    refine ⟨hh.1, ?_⟩
    have hfin := hh.2 tid
    simp only [if_true] at hfin
    unfold Thread.flush
    simp only [hl.1, hl.2.2.2.2 tid, hown, hcb, if_true, hfin]
    rw [← hh.1]
    rfl

/-- C6 at `{ ScopeTimer a{"A"}; { ScopeTimer b{"B"}; } }` with process 0 enabled in
immediate mode: exactly two deliveries, "B" first and then "A". -/
theorem C6_lifo_delivery_witness :
    (∃ (w1 : World (SpecState Nat Nat) Nat Nat) (frames : List (Frame Nat Nat)),
      run specOps (Prog.scope argsA (Prog.scope argsB Prog.skip Prog.skip) Prog.skip)
        exampleWorld = Ran.finished w1 ∧
      frames.map Frame.origin = [("B", 2, 20), ("A", 1, 10)] ∧
      w1.state.delivered = frames.map (fun f => [f])) ∧
    (run specOps (Prog.scope argsA (Prog.scope argsB Prog.skip Prog.skip) Prog.skip)
      exampleWorld).world.state.delivered.map (List.map Frame.name) = [["B"], ["A"]] := by
  refine ⟨?_, rfl⟩
  obtain ⟨w1, frames, hrun, hor, -, -, -, -, hev, -⟩ :=
    (C6_lifo_delivery 0 0 (Prog.scope argsA (Prog.scope argsB Prog.skip Prog.skip) Prog.skip)
      exampleWorld ⟨⟨rfl, rfl, rfl⟩, ⟨⟨rfl, rfl, rfl⟩, trivial, trivial⟩, trivial⟩ rfl rfl
      (fun _ _ _ => rfl)).1 rfl
  exact ⟨w1, frames, hrun, hor, by simpa using hev rfl⟩


theorem ended_start_only (f : Frame TypeEraser SourceLoc)
    (r : Except system_error (Int × Option Int)) :
    (ended f r).start_only = f.start_only ∧
      ended f r = { f with end_wall := (ended f r).end_wall, end_cpu := (ended f r).end_cpu } := by
  rcases r with e | ⟨wall, cpu⟩ <;> exact ⟨rfl, rfl⟩

theorem clean_capture (s : SpecState TypeEraser SourceLoc) (h : StartOnlyClean s) :
    StartOnlyClean (capture_times s).1 := by
  obtain ⟨k, hk⟩ := capture_times_state s
  rw [hk]
  exact h

theorem clean_push (s : SpecState TypeEraser SourceLoc) (tid : Nat)
    (f : Frame TypeEraser SourceLoc) (hf : f.start_only = false) (h : StartOnlyClean s) :
    StartOnlyClean (s.set_thread tid { s.thread tid with stack := f :: (s.thread tid).stack }) := by
  obtain ⟨h1, h2, h3, h4⟩ := h
  refine ⟨fun i x hx => ?_, fun i x hx => ?_, h3, fun i x hx => ?_⟩
  · rw [set_thread_thread] at hx
    by_cases hi : i = tid
    · rw [if_pos hi] at hx
      simp only [List.mem_cons] at hx
      rcases hx with hx | hx
      · rw [hx]
        exact hf
      · exact h1 tid x hx
    · rw [if_neg hi] at hx
      exact h1 i x hx
  · rw [set_thread_thread] at hx
    by_cases hi : i = tid
    · rw [if_pos hi] at hx
      exact h2 tid x hx
    · rw [if_neg hi] at hx
      exact h2 i x hx
  · rw [set_thread_thread] at hx
    by_cases hi : i = tid
    · rw [if_pos hi] at hx
      exact h4 tid x hx
    · rw [if_neg hi] at hx
      exact h4 i x hx

theorem clean_mark (s : SpecState TypeEraser SourceLoc) (tid : Nat)
    (f : Frame TypeEraser SourceLoc)
    (hf : f.start_only = true ∧ f.end_wall = none ∧ f.end_cpu = none) (h : StartOnlyClean s) :
    StartOnlyClean
      (s.set_thread tid { s.thread tid with markers := f :: (s.thread tid).markers }) := by
  obtain ⟨h1, h2, h3, h4⟩ := h
  refine ⟨fun i x hx => ?_, fun i x hx => ?_, h3, fun i x hx => ?_⟩
  · rw [set_thread_thread] at hx
    by_cases hi : i = tid
    · rw [if_pos hi] at hx
      exact h1 tid x hx
    · rw [if_neg hi] at hx
      exact h1 i x hx
  · rw [set_thread_thread] at hx
    by_cases hi : i = tid
    · rw [if_pos hi] at hx
      exact h2 tid x hx
    · rw [if_neg hi] at hx
      exact h2 i x hx
  · rw [set_thread_thread] at hx
    by_cases hi : i = tid
    · rw [if_pos hi] at hx
      simp only [List.mem_cons] at hx
      rcases hx with hx | hx
      · rw [hx]
        exact hf
      · exact h4 tid x hx
    · rw [if_neg hi] at hx
      exact h4 i x hx

theorem clean_pop (s : SpecState TypeEraser SourceLoc) (tid : Nat)
    (f : Frame TypeEraser SourceLoc) (below : List (Frame TypeEraser SourceLoc))
    (hs : (s.thread tid).stack = f :: below) (h : StartOnlyClean s) :
    StartOnlyClean (s.set_thread tid { s.thread tid with stack := below }) ∧
      f.start_only = false := by
  obtain ⟨h1, h2, h3, h4⟩ := h
  have hall := h1 tid
  rw [hs] at hall
  refine ⟨⟨fun i x hx => ?_, fun i x hx => ?_, h3, fun i x hx => ?_⟩,
    hall f (List.mem_cons_self _ _)⟩
  · rw [set_thread_thread] at hx
    by_cases hi : i = tid
    · rw [if_pos hi] at hx
      exact hall x (List.mem_cons_of_mem _ hx)
    · rw [if_neg hi] at hx
      exact h1 i x hx
  · rw [set_thread_thread] at hx
    by_cases hi : i = tid
    · rw [if_pos hi] at hx
      exact h2 tid x hx
    · rw [if_neg hi] at hx
      exact h2 i x hx
  · rw [set_thread_thread] at hx
    by_cases hi : i = tid
    · rw [if_pos hi] at hx
      exact h4 tid x hx
    · rw [if_neg hi] at hx
      exact h4 i x hx

theorem clean_deliver (s : SpecState TypeEraser SourceLoc) (tid : Nat)
    (f : Frame TypeEraser SourceLoc) (hf : f.start_only = false) (h : StartOnlyClean s) :
    StartOnlyClean (deliver s tid f) := by
  obtain ⟨h1, h2, h3, h4⟩ := h
  unfold deliver
  cases he : (s.process (s.thread tid).process).every
  · simp only [he, Bool.false_eq_true, if_false]
    refine ⟨fun i x hx => ?_, fun i x hx => ?_, h3, fun i x hx => ?_⟩
    · rw [set_thread_thread] at hx
      by_cases hi : i = tid
      · rw [if_pos hi] at hx
        exact h1 tid x hx
      · rw [if_neg hi] at hx
        exact h1 i x hx
    · rw [set_thread_thread] at hx
      by_cases hi : i = tid
      · rw [if_pos hi] at hx
        simp only [List.mem_append, List.mem_singleton] at hx
        rcases hx with hx | hx
        · exact h2 tid x hx
        · rw [hx]
          exact hf
      · rw [if_neg hi] at hx
        exact h2 i x hx
    · rw [set_thread_thread] at hx
      by_cases hi : i = tid
      · rw [if_pos hi] at hx
        exact h4 tid x hx
      · rw [if_neg hi] at hx
        exact h4 i x hx
  · simp only [he, if_true]
    cases hc : (s.process (s.thread tid).process).callback
    · simp only [hc, Bool.false_eq_true, if_false]
      exact ⟨h1, h2, h3, h4⟩
    · simp only [hc, if_true]
      refine ⟨h1, h2, fun batch hb x hx => ?_, h4⟩
      simp only [List.mem_append, List.mem_singleton] at hb
      rcases hb with hb | hb
      · exact h3 batch hb x hx
      · rw [hb] at hx
        simp only [List.mem_singleton] at hx
        rw [hx]
        exact hf

theorem clean_exit (s : SpecState TypeEraser SourceLoc) (tid : Nat) (h : StartOnlyClean s) :
    StartOnlyClean (Thread.exit_stack_frame s tid) := by
  cases hs : (s.thread tid).stack with
  | nil =>
    rw [exit_empty s tid hs]
    exact h
  | cons f below =>
    rw [exit_pop s tid f below hs]
    obtain ⟨hth, -, -⟩ := capture_times_thread s
    have hs1 : ((capture_times s).1.thread tid).stack = f :: below := by
      rw [hth]
      exact hs
    obtain ⟨hc, hf⟩ := clean_pop (capture_times s).1 tid f below hs1 (clean_capture s h)
    exact clean_deliver _ tid _ (by rw [(ended_start_only f _).1]; exact hf) hc

theorem clean_enter (s : SpecState TypeEraser SourceLoc) (tid : Nat) (name : String)
    (info : TypeEraser) (source_loc : SourceLoc) (o : Bool) (h : StartOnlyClean s) :
    StartOnlyClean (Thread.enter_stack_frame s tid name info source_loc o).1 := by
  rcases hct : (capture_times s).2 with e | ⟨wall, cpu⟩
  · rw [enter_error s tid name info source_loc o e hct]
    exact clean_capture s h
  · cases o with
    | false =>
      rw [enter_push s tid name info source_loc wall cpu hct]
      exact clean_push _ tid _ rfl (clean_capture s h)
    | true =>
      rw [enter_mark s tid name info source_loc wall cpu hct]
      exact clean_mark _ tid _ ⟨rfl, rfl, rfl⟩ (clean_capture s h)

theorem clean_flush (s : SpecState TypeEraser SourceLoc) (tid : Nat) (h : StartOnlyClean s) :
    StartOnlyClean (Thread.flush s tid) := by
  obtain ⟨h1, h2, h3, h4⟩ := h
  have hbase : StartOnlyClean (s.set_thread tid { s.thread tid with finished := [] }) := by
    refine ⟨fun i x hx => ?_, fun i x hx => ?_, h3, fun i x hx => ?_⟩
    · rw [set_thread_thread] at hx
      by_cases hi : i = tid
      · rw [if_pos hi] at hx
        exact h1 tid x hx
      · rw [if_neg hi] at hx
        exact h1 i x hx
    · rw [set_thread_thread] at hx
      by_cases hi : i = tid
      · rw [if_pos hi] at hx
        cases hx
      · rw [if_neg hi] at hx
        exact h2 i x hx
    · rw [set_thread_thread] at hx
      by_cases hi : i = tid
      · rw [if_pos hi] at hx
        exact h4 tid x hx
      · rw [if_neg hi] at hx
        exact h4 i x hx
  unfold Thread.flush
  cases hc : (s.process (s.thread tid).process).callback
  · simp only [hc, Bool.false_eq_true, if_false]
    exact hbase
  · simp only [hc, if_true]
    obtain ⟨b1, b2, b3, b4⟩ := hbase
    refine ⟨b1, b2, fun batch hb x hx => ?_, b4⟩
    simp only [List.mem_append, List.mem_singleton] at hb
    rcases hb with hb | hb
    · exact h3 batch hb x hx
    · rw [hb] at hx
      exact h2 tid x hx

theorem clean_ctor (a : ScopeTimerArgs TypeEraser SourceLoc)
    (w : World (SpecState TypeEraser SourceLoc) TypeEraser SourceLoc)
    (h : StartOnlyClean w.state) : StartOnlyClean (ScopeTimer.ctor specOps a w).world.state := by
  cases hen : (w.state.process a.process).enabled with
  | false =>
    rw [ctor_disabled specOps a w hen]
    exact h
  | true =>
    have hst : (ScopeTimer.ctor specOps a w).world.state =
        (Thread.enter_stack_frame w.state a.thread a.name a.info a.source_loc
          a.only_time_start).1 := by
      rw [ctor_enabled specOps a w hen]
      cases (specOps.enter_stack_frame w.state a.thread a.name a.info a.source_loc
        a.only_time_start).2 <;> rfl
    rw [hst]
    exact clean_enter _ _ _ _ _ _ h

theorem clean_dtor (g : ScopeTimer TypeEraser SourceLoc)
    (w : World (SpecState TypeEraser SourceLoc) TypeEraser SourceLoc)
    (h : StartOnlyClean w.state) : StartOnlyClean (ScopeTimer.dtor specOps g w).world.state := by
  cases hg : (g.enabled && !g.args.only_time_start)
  · rw [dtor_noop specOps g w hg]
    exact h
  · rw [dtor_spec_exit g w hg]
    exact clean_exit _ _ h

theorem clean_run (prog : Prog TypeEraser SourceLoc) :
    ∀ w : World (SpecState TypeEraser SourceLoc) TypeEraser SourceLoc,
      StartOnlyClean w.state → StartOnlyClean (run specOps prog w).world.state := by
  induction prog with
  | skip => exact fun w h => h
  | set_enabled p b rest ih =>
    intro w h
    simp only [run]
    exact ih _ h
  | scope a body rest ihb ihr =>
    intro w h
    have hc1 := clean_ctor a w h
    simp only [run]
    cases hc : ScopeTimer.ctor specOps a w with
    | threw e w1 =>
      rw [hc] at hc1
      exact hc1
    | object g w1 =>
      rw [hc] at hc1
      simp only []
      have hb := ihb w1 hc1
      cases hrb : run specOps body w1 with
      | finished w2 =>
        rw [hrb] at hb
        have hd1 := clean_dtor g w2 hb
        cases hd : ScopeTimer.dtor specOps g w2 with
        | completed w3 =>
          rw [hd] at hd1
          simp only [hd]
          exact ihr w3 hd1
        | terminated e w3 =>
          rw [hd] at hd1
          simp only [hd]
          exact hd1
      | threw e w2 =>
        rw [hrb] at hb
        have hd1 := clean_dtor g w2 hb
        cases hd : ScopeTimer.dtor specOps g w2 with
        | completed w3 =>
          rw [hd] at hd1
          simp only [hd]
          exact hd1
        | terminated e w3 =>
          rw [hd] at hd1
          simp only [hd]
          exact hd1
      | terminated e w2 =>
        rw [hrb] at hb
        exact hb

theorem popsOwnFrame_holds (args : ScopeTimerArgs TypeEraser SourceLoc)
    (body : Prog TypeEraser SourceLoc)
    (w : World (SpecState TypeEraser SourceLoc) TypeEraser SourceLoc) :
    popsOwnFrame args body w := by
  intro g w1 hc hg
  rcases ctor_spec_cases args w with ⟨e, wq, hq, -⟩ | ⟨gq, wq, hq, -, hcond, -⟩ |
    ⟨gq, wq, f, hq, hga, -, hfo, -, -, -, -, hsq⟩
  · rw [hq] at hc
    cases hc
  · rw [hq] at hc
    cases hc
    rw [hcond] at hg
    cases hg
  · rw [hq] at hc
    cases hc
    obtain ⟨w2, h2⟩ := run_unwinds body w1
    have hs1 : stackOf w1 args.thread = f :: stackOf w args.thread := by
      rw [hsq args.thread, if_pos rfl]
    have hs2 : stackOf w2 args.thread = f :: stackOf w args.thread := by
      rw [run_stacks body w1 w2 h2 args.thread, hs1]
    have hs2g : (w2.state.thread g.args.thread).stack = f :: stackOf w args.thread := by
      rw [hga]
      exact hs2
    have hd := dtor_spec_pop g w2 hg f _ hs2g
    have hh := handedOver_exit w2.state g.args.thread (stackOf w args.thread)
      (ended f (capture_times w2.state).2)
    have heq := (ended_start_only f (capture_times w2.state).2).2
    rw [hga] at hh hd
    refine ⟨f, w2, _, (ended f (capture_times w2.state).2).end_wall,
      (ended f (capture_times w2.state).2).end_cpu, hfo, hs1, h2, hs2, hd, ?_, ?_⟩
    · rw [stackOf_pop, if_pos rfl]
    · rw [← heq]
      exact hh

/-- C5: push/pop on the frame stack of a thread is perfectly nested.  For every
block `{ ScopeTimer t{args}; body }`, whatever `body` is (guards enabled or
disabled, start-only or not, `set_enabled` calls) and from whatever state it
runs: if the destructor of the guard calls `exit_stack_frame`, then the
constructor pushed a frame carrying the args, that frame is topmost again when
`body` has been left and the destructor runs, the destructor hands over that
frame and no other, and leaves the stack as it was before the constructor. -/
theorem C5_nested_pop (args : ScopeTimerArgs TypeEraser SourceLoc)
    (body : Prog TypeEraser SourceLoc)
    (w : World (SpecState TypeEraser SourceLoc) TypeEraser SourceLoc) :
    popsOwnFrame args body w :=
  popsOwnFrame_holds args body w

/-- C5 at `{ ScopeTimer a{"A"}; { ScopeTimer s{"S", start-only}; { ScopeTimer
b{"B"}; } } }`: when the destructor of "A" runs, the frame of "A" is topmost; the
frames handed over are "B" and then "A", and "S" is recorded as a marker. -/
theorem C5_nested_pop_witness :
    (∃ (f : Frame Nat Nat) (w2 w3 : World (SpecState Nat Nat) Nat Nat) (ew ec : Option Int),
      f.origin = argsA.origin ∧
      stackOf (ScopeTimer.ctor specOps argsA exampleWorld).world 0 = f :: stackOf exampleWorld 0 ∧
      (run specOps (Prog.scope argsS (Prog.scope argsB Prog.skip Prog.skip) Prog.skip)
        (ScopeTimer.ctor specOps argsA exampleWorld).world).unwound = some w2 ∧
      stackOf w2 0 = f :: stackOf exampleWorld 0 ∧
      ScopeTimer.dtor specOps ⟨argsA, true⟩ w2 = Destroyed.completed w3 ∧
      stackOf w3 0 = stackOf exampleWorld 0 ∧
      handedOver w2.state w3.state 0 [{ f with end_wall := ew, end_cpu := ec }]) ∧
    (run specOps (Prog.scope argsA (Prog.scope argsS (Prog.scope argsB Prog.skip Prog.skip)
      Prog.skip) Prog.skip) exampleWorld).world.state.delivered.map (List.map Frame.name) =
      [["B"], ["A"]] ∧
    (markersOf (run specOps (Prog.scope argsA (Prog.scope argsS (Prog.scope argsB Prog.skip
      Prog.skip) Prog.skip) Prog.skip) exampleWorld).world 0).map Frame.name = ["S"] :=
  ⟨C5_nested_pop argsA (Prog.scope argsS (Prog.scope argsB Prog.skip Prog.skip) Prog.skip)
    exampleWorld ⟨argsA, true⟩ (ScopeTimer.ctor specOps argsA exampleWorld).world rfl rfl,
    rfl, rfl⟩

theorem ctor_spec_delivered (a : ScopeTimerArgs TypeEraser SourceLoc)
    (w w1 : World (SpecState TypeEraser SourceLoc) TypeEraser SourceLoc)
    (g : ScopeTimer TypeEraser SourceLoc)
    (hc : ScopeTimer.ctor specOps a w = Constructed.object g w1) :
    w1.state.delivered = w.state.delivered := by
  obtain ⟨-, hdl, -⟩ := capture_times_thread w.state
  cases hen : (w.state.process a.process).enabled with
  | false =>
    rw [ctor_disabled specOps a w hen] at hc
    cases hc
    rfl
  | true =>
    rcases hct : (capture_times w.state).2 with e | ⟨wall, cpu⟩
    · rw [ctor_spec_error a w hen e hct] at hc
      cases hc
    · cases ho : a.only_time_start with
      | true =>
        rw [ctor_spec_mark a w hen ho wall cpu hct] at hc
        cases hc
        exact hdl
      | false =>
        rw [ctor_spec_push a w hen ho wall cpu hct] at hc
        cases hc
        exact hdl

theorem ctor_spec_frame (a : ScopeTimerArgs TypeEraser SourceLoc)
    (w w1 : World (SpecState TypeEraser SourceLoc) TypeEraser SourceLoc)
    (g : ScopeTimer TypeEraser SourceLoc)
    (hc : ScopeTimer.ctor specOps a w = Constructed.object g w1) (hg : g.enabled = true) :
    ∃ f : Frame TypeEraser SourceLoc,
      (f.name = a.name ∧ f.info = a.info ∧ f.source_loc = a.source_loc) ∧
      f.thread = a.thread ∧ f.start_only = a.only_time_start ∧
      (a.only_time_start = false → stackOf w1 a.thread = f :: stackOf w a.thread) ∧
      (a.only_time_start = true →
        markersOf w1 a.thread = f :: markersOf w a.thread ∧
        stackOf w1 a.thread = stackOf w a.thread) := by
  have hge := ctor_object specOps a w w1 g hc
  have hen : (w.state.process a.process).enabled = true := by
    rw [hge] at hg
    exact hg
  obtain ⟨hth, -, -⟩ := capture_times_thread w.state
  rcases hct : (capture_times w.state).2 with e | ⟨wall, cpu⟩
  · rw [ctor_spec_error a w hen e hct] at hc
    cases hc
  · cases ho : a.only_time_start with
    | true =>
      rw [ctor_spec_mark a w hen ho wall cpu hct] at hc
      cases hc
      exact ⟨⟨a.name, a.source_loc, a.info, wall, cpu, none, none, a.thread, true⟩,
        ⟨rfl, rfl, rfl⟩, rfl, rfl, fun h => (by cases h),
        fun _ => ⟨by simp [markersOf, set_thread_thread, hth],
          by simp [stackOf, set_thread_thread, hth]⟩⟩
    | false =>
      rw [ctor_spec_push a w hen ho wall cpu hct] at hc
      cases hc
      exact ⟨⟨a.name, a.source_loc, a.info, wall, cpu, none, none, a.thread, false⟩,
        ⟨rfl, rfl, rfl⟩, rfl, rfl,
        fun _ => by simp [stackOf, set_thread_thread, hth], fun h => (by cases h)⟩

theorem ctor_spec_marker_times (a : ScopeTimerArgs TypeEraser SourceLoc)
    (w w1 : World (SpecState TypeEraser SourceLoc) TypeEraser SourceLoc)
    (g : ScopeTimer TypeEraser SourceLoc)
    (hc : ScopeTimer.ctor specOps a w = Constructed.object g w1) (hg : g.enabled = true)
    (ho : a.only_time_start = true) :
    ∃ f : Frame TypeEraser SourceLoc,
      markersOf w1 a.thread = f :: markersOf w a.thread ∧ f.end_wall = none ∧
        f.end_cpu = none := by
  have hge := ctor_object specOps a w w1 g hc
  have hen : (w.state.process a.process).enabled = true := by
    rw [hge] at hg
    exact hg
  obtain ⟨hth, -, -⟩ := capture_times_thread w.state
  rcases hct : (capture_times w.state).2 with e | ⟨wall, cpu⟩
  · rw [ctor_spec_error a w hen e hct] at hc
    cases hc
  · rw [ctor_spec_mark a w hen ho wall cpu hct] at hc
    cases hc
    exact ⟨⟨a.name, a.source_loc, a.info, wall, cpu, none, none, a.thread, true⟩,
      by simp [markersOf, set_thread_thread, hth], rfl, rfl⟩

end SpecTheorems

/-! ## Theorems: the guard, for every `Process` and `Thread` -/

section GuardClaims

variable {σ TypeEraser SourceLoc : Type}

/-- C1: when the process of the args reports disabled at construction, the
constructor returns a guard without calling `enter_stack_frame` and leaves the
program state and the call log as they were; the destructor of that guard, whenever
it runs, calls nothing and changes nothing; so any code made of such guards, and in
particular 1000 nested ones, ends with the state (frame stacks, callback
invocations) and the call log unchanged. -/
theorem C1_disabled_guard (ops : Ops σ TypeEraser SourceLoc)
    (args : ScopeTimerArgs TypeEraser SourceLoc) (w : World σ TypeEraser SourceLoc)
    (h : ops.is_enabled w.state args.process = false) :
    ScopeTimer.ctor ops args w = Constructed.object ⟨args, false⟩ w ∧
    (∀ w1 : World σ TypeEraser SourceLoc,
      ScopeTimer.dtor ops ⟨args, false⟩ w1 = Destroyed.completed w1) ∧
    run ops (Prog.scope args Prog.skip Prog.skip) w = Ran.finished w ∧
    (∀ prog : Prog TypeEraser SourceLoc, allDisabled ops w prog →
      run ops prog w = Ran.finished w) ∧
    (∀ n : Nat, run ops (nested args n) w = Ran.finished w) ∧
    run ops (nested args 1000) w = Ran.finished w :=
  ⟨ctor_disabled ops args w h,
    fun w1 => dtor_noop ops _ w1 (by simp),
    run_allDisabled ops w _ ⟨h, trivial, trivial⟩,
    fun prog hp => run_allDisabled ops w prog hp,
    fun n => run_allDisabled ops w _ (allDisabled_nested ops w args h n),
    run_allDisabled ops w _ (allDisabled_nested ops w args h 1000)⟩

/-- C1 at the guard "D" of the disabled process 1. -/
theorem C1_disabled_guard_witness :
    ScopeTimer.ctor specOps argsD exampleWorld = Constructed.object ⟨argsD, false⟩ exampleWorld ∧
    (∀ w1 : World (SpecState Nat Nat) Nat Nat,
      ScopeTimer.dtor specOps ⟨argsD, false⟩ w1 = Destroyed.completed w1) ∧
    run specOps (Prog.scope argsD Prog.skip Prog.skip) exampleWorld = Ran.finished exampleWorld ∧
    (∀ prog : Prog Nat Nat, allDisabled specOps exampleWorld prog →
      run specOps prog exampleWorld = Ran.finished exampleWorld) ∧
    (∀ n : Nat, run specOps (nested argsD n) exampleWorld = Ran.finished exampleWorld) ∧
    run specOps (nested argsD 1000) exampleWorld = Ran.finished exampleWorld :=
  C1_disabled_guard specOps argsD exampleWorld rfl

/-- C2: when the process of the args reports enabled at construction, the
constructor makes exactly one call, `enter_stack_frame` on the thread of the args
with the name, info, source location and only_time_start of the args; the state
it leaves is the one that call leaves, and it returns a guard when the call
returns and throws what the call throws.  With the `Thread` of the specification
the new frame of that thread carries the name, info, source location and
start-only flag of the args; it is pushed on the stack, or, when the args are
start-only, recorded as a start-only marker. -/
theorem C2_enabled_enters_once (ops : Ops σ TypeEraser SourceLoc)
    (args : ScopeTimerArgs TypeEraser SourceLoc) (w : World σ TypeEraser SourceLoc)
    (h : ops.is_enabled w.state args.process = true) :
    (ScopeTimer.ctor ops args w).world.calls =
      w.calls ++ [Call.enter_stack_frame args.thread args.name args.info args.source_loc
        args.only_time_start] ∧
    (ScopeTimer.ctor ops args w).world.state =
      (ops.enter_stack_frame w.state args.thread args.name args.info args.source_loc
        args.only_time_start).1 ∧
    ((ops.enter_stack_frame w.state args.thread args.name args.info args.source_loc
        args.only_time_start).2 = none →
      (ScopeTimer.ctor ops args w).guard = some ⟨args, true⟩) ∧
    (∀ e, (ops.enter_stack_frame w.state args.thread args.name args.info args.source_loc
        args.only_time_start).2 = some e →
      ∃ w1, ScopeTimer.ctor ops args w = Constructed.threw e w1) ∧
    (∀ (v v1 : World (SpecState TypeEraser SourceLoc) TypeEraser SourceLoc)
        (g : ScopeTimer TypeEraser SourceLoc),
      ScopeTimer.ctor specOps args v = Constructed.object g v1 → g.enabled = true →
      ∃ f : Frame TypeEraser SourceLoc,
        (f.name = args.name ∧ f.info = args.info ∧ f.source_loc = args.source_loc) ∧
        f.thread = args.thread ∧ f.start_only = args.only_time_start ∧
        (args.only_time_start = false →
          stackOf v1 args.thread = f :: stackOf v args.thread) ∧
        (args.only_time_start = true →
          markersOf v1 args.thread = f :: markersOf v args.thread ∧
          stackOf v1 args.thread = stackOf v args.thread)) := by
  have hspec : ∀ (v v1 : World (SpecState TypeEraser SourceLoc) TypeEraser SourceLoc)
      (g : ScopeTimer TypeEraser SourceLoc),
      ScopeTimer.ctor specOps args v = Constructed.object g v1 → g.enabled = true →
      ∃ f : Frame TypeEraser SourceLoc,
        (f.name = args.name ∧ f.info = args.info ∧ f.source_loc = args.source_loc) ∧
        f.thread = args.thread ∧ f.start_only = args.only_time_start ∧
        (args.only_time_start = false →
          stackOf v1 args.thread = f :: stackOf v args.thread) ∧
        (args.only_time_start = true →
          markersOf v1 args.thread = f :: markersOf v args.thread ∧
          stackOf v1 args.thread = stackOf v args.thread) := by
    intro v v1 g hc hg
    exact ctor_spec_frame args v v1 g hc hg
  rw [ctor_enabled ops args w h]
  cases hr : (ops.enter_stack_frame w.state args.thread args.name args.info args.source_loc
    args.only_time_start).2
  · exact ⟨rfl, rfl, fun _ => rfl, fun e he => (by cases he), hspec⟩
  · refine ⟨rfl, rfl, fun hn => (by cases hn), fun e he => ?_, hspec⟩
    cases he
    exact ⟨_, rfl⟩

/-- C2 at the guard "A" of the enabled process 0: one call, carrying name "A",
info 1, source location 10 and the flag false, on thread 0. -/
theorem C2_enabled_enters_once_witness :
    (ScopeTimer.ctor specOps argsA exampleWorld).world.calls =
      [Call.enter_stack_frame 0 "A" 1 10 false] ∧
    ((ScopeTimer.ctor specOps argsA exampleWorld).world.state.thread 0).stack.map Frame.origin =
      [("A", 1, 10)] :=
  ⟨(C2_enabled_enters_once specOps argsA exampleWorld rfl).1, rfl⟩

/-- C3: the destructor of a guard makes exactly one call, `exit_stack_frame` on
the thread of its args, if and only if the guard was constructed while the process
was enabled and its only_time_start flag is false, and then leaves the state that
call leaves; otherwise, and in particular when only_time_start is true, the
destructor calls nothing and leaves the state as it was.  With the `Thread` of
the specification a start-only guard constructed enabled records its frame as a
marker without end times and leaves the stack alone, and in every run no
start-only frame is ever open, waiting or delivered, and none ever has an end
time, also after a flush. -/
theorem C3_destruction (ops : Ops σ TypeEraser SourceLoc)
    (args : ScopeTimerArgs TypeEraser SourceLoc) (w0 w1 : World σ TypeEraser SourceLoc)
    (g : ScopeTimer TypeEraser SourceLoc)
    (hc : ScopeTimer.ctor ops args w0 = Constructed.object g w1)
    (w : World σ TypeEraser SourceLoc) :
    ((ScopeTimer.dtor ops g w).world.calls = w.calls ++ [Call.exit_stack_frame args.thread] ↔
      (ops.is_enabled w0.state args.process = true ∧ args.only_time_start = false)) ∧
    ((ops.is_enabled w0.state args.process = true ∧ args.only_time_start = false) →
      (ScopeTimer.dtor ops g w).world.state = (ops.exit_stack_frame w.state args.thread).1) ∧
    (¬ (ops.is_enabled w0.state args.process = true ∧ args.only_time_start = false) →
      ScopeTimer.dtor ops g w = Destroyed.completed w) ∧
    (args.only_time_start = true → ScopeTimer.dtor ops g w = Destroyed.completed w) ∧
    (∀ (v v1 : World (SpecState TypeEraser SourceLoc) TypeEraser SourceLoc)
        (gs : ScopeTimer TypeEraser SourceLoc),
      args.only_time_start = true →
      ScopeTimer.ctor specOps args v = Constructed.object gs v1 →
      (∀ v2, ScopeTimer.dtor specOps gs v2 = Destroyed.completed v2) ∧
      (∀ tid, stackOf v1 tid = stackOf v tid) ∧
      v1.state.delivered = v.state.delivered ∧
      (gs.enabled = true →
        ∃ f : Frame TypeEraser SourceLoc,
          (f.name = args.name ∧ f.info = args.info ∧ f.source_loc = args.source_loc) ∧
          f.start_only = true ∧ f.end_wall = none ∧ f.end_cpu = none ∧
          markersOf v1 args.thread = f :: markersOf v args.thread)) ∧
    (∀ (prog : Prog TypeEraser SourceLoc)
        (v : World (SpecState TypeEraser SourceLoc) TypeEraser SourceLoc),
      StartOnlyClean v.state →
      StartOnlyClean (run specOps prog v).world.state ∧
      ∀ tid, StartOnlyClean (Thread.flush (run specOps prog v).world.state tid)) := by
  have hspec1 : ∀ (v v1 : World (SpecState TypeEraser SourceLoc) TypeEraser SourceLoc)
      (gs : ScopeTimer TypeEraser SourceLoc),
      args.only_time_start = true →
      ScopeTimer.ctor specOps args v = Constructed.object gs v1 →
      (∀ v2, ScopeTimer.dtor specOps gs v2 = Destroyed.completed v2) ∧
      (∀ tid, stackOf v1 tid = stackOf v tid) ∧
      v1.state.delivered = v.state.delivered ∧
      (gs.enabled = true →
        ∃ f : Frame TypeEraser SourceLoc,
          (f.name = args.name ∧ f.info = args.info ∧ f.source_loc = args.source_loc) ∧
          f.start_only = true ∧ f.end_wall = none ∧ f.end_cpu = none ∧
          markersOf v1 args.thread = f :: markersOf v args.thread) := by
    intro v v1 gs ho hcs
    have hgs := ctor_object specOps args v v1 gs hcs
    refine ⟨fun v2 => dtor_noop specOps gs v2 (by rw [hgs]; simp [ho]), ?_, ?_, fun hen => ?_⟩
    · intro tid
      rcases ctor_spec_cases args v with ⟨e, wq, hq, -⟩ | ⟨gq, wq, hq, -, -, hsq⟩ |
        ⟨gq, wq, f, hq, hga, hcond, -⟩
      · rw [hq] at hcs
        cases hcs
      · rw [hq] at hcs
        cases hcs
        exact hsq tid
      · rw [hga, ho] at hcond
        simp at hcond
    · exact ctor_spec_delivered args v v1 gs hcs
    · obtain ⟨f, hfo, hft, hfs, hpush, hmark⟩ := ctor_spec_frame args v v1 gs hcs hen
      have hfe := ctor_spec_marker_times args v v1 gs hcs hen ho
      obtain ⟨f2, hm2, he2, hc2⟩ := hfe
      have hm := (hmark ho).1
      rw [hm2] at hm
      cases hm
      exact ⟨f, hfo, by rw [hfs, ho], he2, hc2, hm2⟩
  have hspec2 : ∀ (prog : Prog TypeEraser SourceLoc)
      (v : World (SpecState TypeEraser SourceLoc) TypeEraser SourceLoc),
      StartOnlyClean v.state →
      StartOnlyClean (run specOps prog v).world.state ∧
      ∀ tid, StartOnlyClean (Thread.flush (run specOps prog v).world.state tid) :=
    fun prog v hv => ⟨clean_run prog v hv, fun tid => clean_flush _ tid (clean_run prog v hv)⟩
  have hg := ctor_object ops args w0 w1 g hc
  subst hg
  have hcalls := dtor_calls ops ⟨args, ops.is_enabled w0.state args.process⟩ w
  refine ⟨?_, fun hy => ?_, fun hn => ?_, fun ho => ?_, hspec1, hspec2⟩
  · rw [hcalls]
    cases ops.is_enabled w0.state args.process <;> cases args.only_time_start <;> simp
  · rw [dtor_exit_world ops _ w (by simp [hy.1, hy.2])]
  · apply dtor_noop
    cases he : ops.is_enabled w0.state args.process <;> cases ho : args.only_time_start <;>
      simp_all
  · exact dtor_noop ops _ w (by simp [ho])

/-- C3 at the start-only guard "S" nested in the guard "A": the destructor of "S"
changes nothing, and after the whole run only "A" was delivered while "S" is a
marker without end time. -/
theorem C3_destruction_witness :
    ScopeTimer.dtor specOps ⟨argsS, true⟩ (ScopeTimer.ctor specOps argsS exampleWorld).world =
      Destroyed.completed (ScopeTimer.ctor specOps argsS exampleWorld).world ∧
    (run specOps (Prog.scope argsA (Prog.scope argsS Prog.skip Prog.skip) Prog.skip)
      exampleWorld).world.state.delivered.map (List.map Frame.name) = [["A"]] ∧
    (markersOf (run specOps (Prog.scope argsA (Prog.scope argsS Prog.skip Prog.skip) Prog.skip)
      exampleWorld).world 0).map (fun f => (f.name, f.end_wall, f.end_cpu)) =
      [("S", none, none)] ∧
    StartOnlyClean (run specOps (Prog.scope argsA (Prog.scope argsS Prog.skip Prog.skip)
      Prog.skip) exampleWorld).world.state :=
  ⟨(C3_destruction specOps argsS exampleWorld (ScopeTimer.ctor specOps argsS exampleWorld).world
    ⟨argsS, true⟩ rfl (ScopeTimer.ctor specOps argsS exampleWorld).world).2.2.2.1 rfl, rfl, rfl,
   ((C3_destruction specOps argsS exampleWorld
      (ScopeTimer.ctor specOps argsS exampleWorld).world ⟨argsS, true⟩ rfl exampleWorld).2.2.2.2.2
      (Prog.scope argsA (Prog.scope argsS Prog.skip Prog.skip) Prog.skip) exampleWorld
      ⟨fun _ _ h => (nomatch h), fun _ _ h => (nomatch h), fun _ h => (nomatch h),
        fun _ _ h => (nomatch h)⟩).1⟩

/-- C4: what the destructor of a guard does depends on the state of the process at
construction only.  For a guard constructed in `w0` and destroyed in any later
world `w`, the destructor calls `exit_stack_frame` (once) if and only if the
process was enabled in `w0` and the guard is not start-only; in particular, with
any sequence of `set_enabled` calls between construction and destruction, the
calls made are the `enter_stack_frame` of the constructor if the process was
enabled in `w0`, followed by the `exit_stack_frame` of the destructor if moreover
the guard is not start-only, and no other; the destructor that calls
`exit_stack_frame` leaves the state that call leaves, the other leaves the state
untouched, and the state the whole block leaves follows.  With the `Thread` of
the specification,
the destructor that calls `exit_stack_frame` completes and pops the frame its
constructor pushed. -/
theorem C4_toggle_independent (ops : Ops σ TypeEraser SourceLoc)
    (args : ScopeTimerArgs TypeEraser SourceLoc) (w0 w1 : World σ TypeEraser SourceLoc)
    (g : ScopeTimer TypeEraser SourceLoc)
    (hc : ScopeTimer.ctor ops args w0 = Constructed.object g w1)
    (ts : List (Nat × Bool)) (w : World σ TypeEraser SourceLoc) :
    ((ScopeTimer.dtor ops g w).world.calls = w.calls ++ [Call.exit_stack_frame args.thread] ↔
      (ops.is_enabled w0.state args.process = true ∧ args.only_time_start = false)) ∧
    (¬ (ops.is_enabled w0.state args.process = true ∧ args.only_time_start = false) →
      ScopeTimer.dtor ops g w = Destroyed.completed w) ∧
    ((ops.is_enabled w0.state args.process = true ∧ args.only_time_start = false) →
      (ScopeTimer.dtor ops g w).world.state = (ops.exit_stack_frame w.state args.thread).1 ∧
      ((ops.exit_stack_frame w.state args.thread).2 = none →
        ScopeTimer.dtor ops g w = Destroyed.completed
          ⟨(ops.exit_stack_frame w.state args.thread).1,
            w.calls ++ [Call.exit_stack_frame args.thread]⟩)) ∧
    (run ops (Prog.scope args (toggles ts) Prog.skip) w0).world.state =
      (if ops.is_enabled w0.state args.process && !args.only_time_start then
        (ops.exit_stack_frame
          (ts.foldl (fun s pb => ops.set_enabled s pb.1 pb.2) w1.state) args.thread).1
      else ts.foldl (fun s pb => ops.set_enabled s pb.1 pb.2) w1.state) ∧
    run ops (toggles ts) w1 =
      Ran.finished ⟨ts.foldl (fun s pb => ops.set_enabled s pb.1 pb.2) w1.state, w1.calls⟩ ∧
    (run ops (Prog.scope args (toggles ts) Prog.skip) w0).world.calls =
      w0.calls ++
        (if ops.is_enabled w0.state args.process then
          [Call.enter_stack_frame args.thread args.name args.info args.source_loc
            args.only_time_start]
        else []) ++
        (if ops.is_enabled w0.state args.process && !args.only_time_start then
          [Call.exit_stack_frame args.thread]
        else []) ∧
    (∀ v : World (SpecState TypeEraser SourceLoc) TypeEraser SourceLoc,
      popsOwnFrame args (toggles ts) v) := by
  have hw1 := ctor_object_world ops args w0 w1 g hc
  have hg := ctor_object ops args w0 w1 g hc
  subst hg
  have hcalls := dtor_calls ops ⟨args, ops.is_enabled w0.state args.process⟩ w
  refine ⟨?_, ?_, ?_, ?_, run_toggles ops ts w1, ?_,
    fun v => popsOwnFrame_holds args (toggles ts) v⟩
  · rw [hcalls]
    cases ops.is_enabled w0.state args.process <;> cases args.only_time_start <;> simp
  · intro hn
    apply dtor_noop
    cases he : ops.is_enabled w0.state args.process <;> cases ho : args.only_time_start <;>
      simp_all
  · intro hy
    have hcond : ((⟨args, ops.is_enabled w0.state args.process⟩ :
        ScopeTimer TypeEraser SourceLoc).enabled &&
        !(⟨args, ops.is_enabled w0.state args.process⟩ :
          ScopeTimer TypeEraser SourceLoc).args.only_time_start) = true := by
      simp [hy.1, hy.2]
    refine ⟨by rw [dtor_exit_world ops _ w hcond], fun hn => ?_⟩
    rw [dtor_exit ops _ w hcond, hn]
  · simp only [run, hc, run_toggles ops ts w1]
    cases hcond : (ops.is_enabled w0.state args.process && !args.only_time_start)
    · rw [dtor_noop ops _ _ hcond]
      simp [run, Ran.world]
    · have hw := dtor_exit_world ops ⟨args, ops.is_enabled w0.state args.process⟩
        ⟨ts.foldl (fun s pb => ops.set_enabled s pb.1 pb.2) w1.state, w1.calls⟩ hcond
      cases hdt : ScopeTimer.dtor ops ⟨args, ops.is_enabled w0.state args.process⟩
        ⟨ts.foldl (fun s pb => ops.set_enabled s pb.1 pb.2) w1.state, w1.calls⟩ with
      | completed w3 =>
        rw [hdt] at hw
        simp only [Destroyed.world] at hw
        simp [run, Ran.world, hw]
      | terminated e w3 =>
        rw [hdt] at hw
        simp only [Destroyed.world] at hw
        simp [Ran.world, hw]
  · simp only [run, hc, run_toggles ops ts w1]
    have hd := dtor_calls ops ⟨args, ops.is_enabled w0.state args.process⟩
      ⟨ts.foldl (fun s pb => ops.set_enabled s pb.1 pb.2) w1.state, w1.calls⟩
    cases hdt : ScopeTimer.dtor ops ⟨args, ops.is_enabled w0.state args.process⟩
      ⟨ts.foldl (fun s pb => ops.set_enabled s pb.1 pb.2) w1.state, w1.calls⟩ with
    | completed w3 =>
      rw [hdt] at hd
      simp only [Destroyed.world] at hd
      simp only [Ran.world, run, hd, hw1]
    | terminated e w3 =>
      rw [hdt] at hd
      simp only [Destroyed.world] at hd
      simp only [Ran.world, hd, hw1]

/-- C4 at the guard "A", constructed while process 0 is enabled and destroyed after
the process was disabled: `enter_stack_frame` and `exit_stack_frame` are both
called, the frame of "A" is delivered and the stack is empty again. -/
theorem C4_toggle_independent_witness :
    (run specOps (Prog.scope argsA (toggles [(0, false)]) Prog.skip) exampleWorld).world.calls =
      [Call.enter_stack_frame 0 "A" 1 10 false, Call.exit_stack_frame 0] ∧
    (run specOps (Prog.scope argsA (toggles [(0, false)]) Prog.skip)
      exampleWorld).world.state.delivered.map (List.map Frame.name) = [["A"]] ∧
    stackOf (run specOps (Prog.scope argsA (toggles [(0, false)]) Prog.skip)
      exampleWorld).world 0 = [] :=
  ⟨(C4_toggle_independent specOps argsA exampleWorld
    (ScopeTimer.ctor specOps argsA exampleWorld).world ⟨argsA, true⟩ rfl [(0, false)]
    exampleWorld).2.2.2.2.2.1, rfl, rfl⟩

end GuardClaims

end ScopeTimerModel
